import Mathlib

set_option maxHeartbeats 1000000
set_option exponentiation.threshold 20000

/-! Verification of the safe-json-formatter core pipeline
    (src/src/components/JsonFormatter.tsx): the parseJson normalizer
    (trim, strict JSON parse, one-level double-encoding recovery) and the
    formatJson serializer (JSON.stringify, minified or pretty-printed).
    Text is modelled as a list of UTF-16 code units (natural numbers). -/

/-- UTF-16 code units of a Lean string (astral code points split into
surrogate pairs); used to state concrete scenarios over the embedding. -/
def utf16 (s : String) : List Nat :=
  s.data.foldr (fun c acc =>
    if c.toNat < 0x10000 then c.toNat :: acc
    else (0xD800 + (c.toNat - 0x10000) / 0x400) :: (0xDC00 + (c.toNat - 0x10000) % 0x400) :: acc) []

/-- Whitespace accepted between tokens by the JSON grammar (JSON.parse). -/
def isJsonWs (c : Nat) : Bool := c == 0x20 || c == 0x09 || c == 0x0A || c == 0x0D

/-- Code points removed by String.prototype.trim: the ECMAScript WhiteSpace
and LineTerminator sets. -/
def isJsWs (c : Nat) : Bool :=
  c == 0x09 || c == 0x0A || c == 0x0B || c == 0x0C || c == 0x0D || c == 0x20 ||
  c == 0xA0 || c == 0x1680 || (decide (0x2000 ≤ c) && decide (c ≤ 0x200A)) ||
  c == 0x2028 || c == 0x2029 || c == 0x202F || c == 0x205F || c == 0x3000 || c == 0xFEFF

/-- The trim() call in parseJson (JsonFormatter.tsx line 64): drop JS
whitespace from both ends of the unit list. -/
def jsTrim (l : List Nat) : List Nat :=
  ((l.dropWhile (fun c => isJsWs c)).reverse.dropWhile (fun c => isJsWs c)).reverse

/-- Skip JSON inter-token whitespace (the parser side). -/
def skipWs : List Nat → List Nat
  | [] => []
  | c :: r => if isJsonWs c then skipWs r else c :: r

/-- The decoded JSON value tree. Numbers are carried as their source lexeme
(the exact unit run matched by the JSON number grammar); strings and object
keys are UTF-16 code-unit lists; object members keep insertion order. -/
inductive Jv where
  | null : Jv
  | bool : Bool → Jv
  | num : List Nat → Jv
  | str : List Nat → Jv
  | arr : List Jv → Jv
  | obj : List (List Nat × Jv) → Jv

/-- Decimal digit code unit. -/
def isDigit (c : Nat) : Bool := decide (0x30 ≤ c) && decide (c ≤ 0x39)

/-- Longest leading run of decimal digits, with the remainder. -/
def takeDigits : List Nat → List Nat × List Nat
  | [] => ([], [])
  | c :: r =>
    if isDigit c then (c :: (takeDigits r).1, (takeDigits r).2)
    else ([], c :: r)

/-- Integer part of a JSON number: a single 0, or a nonzero digit followed
by any digits. -/
def scanInt : List Nat → Option (List Nat × List Nat)
  | [] => none
  | c :: r =>
    if c = 0x30 then some ([c], r)
    else if isDigit c then some (c :: (takeDigits r).1, (takeDigits r).2)
    else none

/-- Optional fraction part: a dot followed by at least one digit. -/
def scanFrac : List Nat → Option (List Nat × List Nat)
  | [] => some ([], [])
  | c :: r =>
    if c = 0x2E then
      if (takeDigits r).1.isEmpty then none
      else some (0x2E :: (takeDigits r).1, (takeDigits r).2)
    else some ([], c :: r)

/-- Optional exponent part: e or E, an optional sign, then digits. -/
def scanExp : List Nat → Option (List Nat × List Nat)
  | [] => some ([], [])
  | c :: r =>
    if c = 0x65 ∨ c = 0x45 then
      match r with
      | [] => none
      | s :: r2 =>
        if s = 0x2B ∨ s = 0x2D then
          if (takeDigits r2).1.isEmpty then none
          else some (c :: s :: (takeDigits r2).1, (takeDigits r2).2)
        else
          if (takeDigits r).1.isEmpty then none
          else some (c :: (takeDigits r).1, (takeDigits r).2)
    else some ([], c :: r)

/-- The unsigned tail of a JSON number: integer, fraction, exponent. -/
def scanNumTail (l : List Nat) : Option (List Nat × List Nat) :=
  match scanInt l with
  | none => none
  | some (ip, l2) =>
    match scanFrac l2 with
    | none => none
    | some (fp, l3) =>
      match scanExp l3 with
      | none => none
      | some (ep, l4) => some (ip ++ fp ++ ep, l4)

/-- Scan a JSON number lexeme (optional minus, integer, fraction, exponent),
returning the lexeme and the remainder. -/
def scanNumber : List Nat → Option (List Nat × List Nat)
  | [] => none
  | c :: r =>
    if c = 0x2D then
      match scanNumTail r with
      | some (lx, rest) => some (c :: lx, rest)
      | none => none
    else scanNumTail (c :: r)

/-- Value of a hexadecimal digit unit, either case. -/
def hexVal (c : Nat) : Option Nat :=
  if decide (0x30 ≤ c) && decide (c ≤ 0x39) then some (c - 0x30)
  else if decide (0x41 ≤ c) && decide (c ≤ 0x46) then some (c - 55)
  else if decide (0x61 ≤ c) && decide (c ≤ 0x66) then some (c - 87)
  else none

/-- The unit named by a short escape after a backslash. -/
def escUnit (e : Nat) : Option Nat :=
  if e = 0x22 then some 0x22
  else if e = 0x5C then some 0x5C
  else if e = 0x2F then some 0x2F
  else if e = 0x62 then some 0x08
  else if e = 0x66 then some 0x0C
  else if e = 0x6E then some 0x0A
  else if e = 0x72 then some 0x0D
  else if e = 0x74 then some 0x09
  else none

/-- Parse the body of a JSON string after the opening quote, up to and past
the closing quote; raw units below 0x20 are rejected, escapes are decoded. -/
def parseStrBody : List Nat → Option (List Nat × List Nat)
  | [] => none
  | c :: r =>
    if c = 0x22 then some ([], r)
    else if c = 0x5C then
      match r with
      | [] => none
      | e :: r2 =>
        if e = 0x75 then
          match r2 with
          | h1 :: h2 :: h3 :: h4 :: r3 =>
            match hexVal h1, hexVal h2, hexVal h3, hexVal h4 with
            | some a, some b, some c3, some d =>
              match parseStrBody r3 with
              | some (s, rest) => some ((((a * 16 + b) * 16 + c3) * 16 + d) :: s, rest)
              | none => none
            | _, _, _, _ => none
          | _ => none
        else
          match escUnit e with
          | some u =>
            match parseStrBody r2 with
            | some (s, rest) => some (u :: s, rest)
            | none => none
          | none => none
    else if decide (0x20 ≤ c) then
      match parseStrBody r with
      | some (s, rest) => some (c :: s, rest)
      | none => none
    else none

/-- Set a key in an association list the way a JS object literal build does:
an existing key keeps its position and takes the new value, a new key is
appended at the end. -/
def objInsert : List (List Nat × Jv) → List Nat → Jv → List (List Nat × Jv)
  | [], k, v => [(k, v)]
  | (k0, v0) :: ms, k, v =>
    if k0 = k then (k0, v) :: ms else (k0, v0) :: objInsert ms k v

/-- Build the member list of a parsed object from the raw key/value pairs in
source order, later duplicates overwriting earlier ones in place. -/
def buildObj (ps : List (List Nat × Jv)) : List (List Nat × Jv) :=
  ps.foldl (fun acc kv => objInsert acc kv.1 kv.2) []

mutual

/-- Parse one JSON value (fuelled recursion; fuel bounds the call depth). -/
def parseVal : Nat → List Nat → Option (Jv × List Nat)
  | 0, _ => none
  | fuel + 1, input =>
    match skipWs input with
    | [] => none
    | c :: r =>
      if c = 0x22 then
        match parseStrBody r with
        | some (s, r1) => some (.str s, r1)
        | none => none
      else if c = 0x5B then
        match skipWs r with
        | [] => none
        | d :: r1 =>
          if d = 0x5D then some (.arr [], r1)
          else
            match parseElems fuel (d :: r1) with
            | some (xs, r2) => some (.arr xs, r2)
            | none => none
      else if c = 0x7B then
        match skipWs r with
        | [] => none
        | d :: r1 =>
          if d = 0x7D then some (.obj [], r1)
          else
            match parseMembers fuel (d :: r1) with
            | some (ps, r2) => some (.obj (buildObj ps), r2)
            | none => none
      else if c = 0x6E then
        match r with
        | 0x75 :: 0x6C :: 0x6C :: r1 => some (.null, r1)
        | _ => none
      else if c = 0x74 then
        match r with
        | 0x72 :: 0x75 :: 0x65 :: r1 => some (.bool true, r1)
        | _ => none
      else if c = 0x66 then
        match r with
        | 0x61 :: 0x6C :: 0x73 :: 0x65 :: r1 => some (.bool false, r1)
        | _ => none
      else
        match scanNumber (c :: r) with
        | some (lx, r1) => some (.num lx, r1)
        | none => none

/-- Parse one or more comma-separated array elements up to the closing
bracket (the empty array is handled by the caller). -/
def parseElems : Nat → List Nat → Option (List Jv × List Nat)
  | 0, _ => none
  | fuel + 1, input =>
    match parseVal fuel input with
    | none => none
    | some (v, r) =>
      match skipWs r with
      | 0x2C :: r1 =>
        match parseElems fuel r1 with
        | some (vs, r2) => some (v :: vs, r2)
        | none => none
      | 0x5D :: r1 => some ([v], r1)
      | _ => none

/-- Parse one or more comma-separated object members up to the closing
brace (the empty object is handled by the caller). -/
def parseMembers : Nat → List Nat → Option (List (List Nat × Jv) × List Nat)
  | 0, _ => none
  | fuel + 1, input =>
    match skipWs input with
    | 0x22 :: r =>
      match parseStrBody r with
      | none => none
      | some (k, r1) =>
        match skipWs r1 with
        | 0x3A :: r2 =>
          match parseVal fuel r2 with
          | none => none
          | some (v, r3) =>
            match skipWs r3 with
            | 0x2C :: r4 =>
              match parseMembers fuel r4 with
              | some (ps, r5) => some ((k, v) :: ps, r5)
              | none => none
            | 0x7D :: r4 => some ([(k, v)], r4)
            | _ => none
        | _ => none
    | _ => none

end

/-- The strict JSON.parse of the whole input: one value, then nothing but
whitespace; the error text plays the role of the engine diagnostic. -/
def jsonParse (input : List Nat) : Except String Jv :=
  match parseVal (input.length + 2) input with
  | some (v, r) =>
    if skipWs r = [] then .ok v
    else .error "Unexpected non-whitespace character after JSON data"
  | none => .error "Unexpected token in JSON input"

/-- Lowercase hexadecimal digit unit for a value below 16. -/
def hexDig (x : Nat) : Nat := if x < 10 then 0x30 + x else 87 + x

/-- Four lowercase hexadecimal digit units of a value below 0x10000. -/
def toHex4 (n : Nat) : List Nat :=
  [hexDig (n / 4096 % 16), hexDig (n / 256 % 16), hexDig (n / 16 % 16), hexDig (n % 16)]

/-- Leading surrogate code unit. -/
def isLead (c : Nat) : Bool := decide (0xD800 ≤ c) && decide (c ≤ 0xDBFF)

/-- Trailing surrogate code unit. -/
def isTrail (c : Nat) : Bool := decide (0xDC00 ≤ c) && decide (c ≤ 0xDFFF)

/-- Escape a string body the way JSON.stringify quotes it: short escapes for
quote, backslash and the named controls, u-escapes for other controls and
for lone surrogates, everything else verbatim (surrogate pairs pass through). -/
def escBody : List Nat → List Nat
  | [] => []
  | c :: r =>
    if c = 0x22 then 0x5C :: 0x22 :: escBody r
    else if c = 0x5C then 0x5C :: 0x5C :: escBody r
    else if c = 0x08 then 0x5C :: 0x62 :: escBody r
    else if c = 0x0C then 0x5C :: 0x66 :: escBody r
    else if c = 0x0A then 0x5C :: 0x6E :: escBody r
    else if c = 0x0D then 0x5C :: 0x72 :: escBody r
    else if c = 0x09 then 0x5C :: 0x74 :: escBody r
    else if c < 0x20 then 0x5C :: 0x75 :: (toHex4 c ++ escBody r)
    else if isLead c then
      match r with
      | d :: r2 =>
        if isTrail d then c :: d :: escBody r2
        else 0x5C :: 0x75 :: (toHex4 c ++ escBody (d :: r2))
      | [] => 0x5C :: 0x75 :: toHex4 c
    else if isTrail c then 0x5C :: 0x75 :: (toHex4 c ++ escBody r)
    else c :: escBody r
termination_by l => l.length
decreasing_by all_goals simp_arith

/-- A serialized JSON string: quote, escaped body, quote. -/
def serStr (s : List Nat) : List Nat := 0x22 :: (escBody s ++ [0x22])

/-- Separator between serialized elements or members: a bare comma when the
gap is empty, else a comma, a newline and the inner indentation. -/
def itemSep (gap ind : List Nat) : List Nat :=
  if gap.isEmpty then [0x2C] else 0x2C :: 0x0A :: ind

mutual

/-- Serialize a value as JSON.stringify does with the given gap (empty gap
is the compact form) at the given accumulated indentation. -/
def serVal (gap ind : List Nat) : Jv → List Nat
  | .null => [0x6E, 0x75, 0x6C, 0x6C]
  | .bool true => [0x74, 0x72, 0x75, 0x65]
  | .bool false => [0x66, 0x61, 0x6C, 0x73, 0x65]
  | .num lx => lx
  | .str s => serStr s
  | .arr [] => [0x5B, 0x5D]
  | .arr (x :: xs) =>
    if gap.isEmpty then 0x5B :: (serSeq gap ind x xs ++ [0x5D])
    else
      0x5B :: 0x0A :: ((ind ++ gap) ++
        (serSeq gap (ind ++ gap) x xs ++ (0x0A :: (ind ++ [0x5D]))))
  | .obj [] => [0x7B, 0x7D]
  | .obj (m :: ms) =>
    if gap.isEmpty then 0x7B :: (serMems gap ind m ms ++ [0x7D])
    else
      0x7B :: 0x0A :: ((ind ++ gap) ++
        (serMems gap (ind ++ gap) m ms ++ (0x0A :: (ind ++ [0x7D]))))
termination_by v => sizeOf v
decreasing_by all_goals simp_arith

/-- Serialize a nonempty run of array elements, joined by the separator. -/
def serSeq (gap ind : List Nat) (x : Jv) (xs : List Jv) : List Nat :=
  match xs with
  | [] => serVal gap ind x
  | y :: ys => serVal gap ind x ++ (itemSep gap ind ++ serSeq gap ind y ys)
termination_by 1 + sizeOf x + sizeOf xs
decreasing_by all_goals simp_arith

/-- Serialize a nonempty run of object members, joined by the separator. -/
def serMems (gap ind : List Nat) (m : List Nat × Jv) (ms : List (List Nat × Jv)) : List Nat :=
  match ms with
  | [] => serMem gap ind m
  | m2 :: ms2 => serMem gap ind m ++ (itemSep gap ind ++ serMems gap ind m2 ms2)
termination_by 1 + sizeOf m + sizeOf ms
decreasing_by all_goals simp_arith

/-- Serialize one object member: quoted key, colon, a space when pretty,
then the value. -/
def serMem (gap ind : List Nat) : List Nat × Jv → List Nat
  | (k, v) => serStr k ++ (0x3A :: ((if gap.isEmpty then [] else [0x20]) ++ serVal gap ind v))
termination_by m => sizeOf m
decreasing_by all_goals simp_arith

end

/-- The format options of the component (indent selector and minify toggle). -/
structure FormatOptions where
  indent : Nat
  minify : Bool

/-- JSON.stringify with an optional numeric space argument: no space means
the compact form, a number is clamped to at most ten space units of gap. -/
def jsonStringify (space : Option Nat) (v : Jv) : List Nat :=
  match space with
  | none => serVal [] [] v
  | some n => serVal (List.replicate (min n 10) 0x20) [] v

/-- The serialization step of formatJson (JsonFormatter.tsx lines 104 to
108): stringify compactly when minify is set, else with the indent option. -/
def formatValue (opts : FormatOptions) (v : Jv) : List Nat :=
  if opts.minify then jsonStringify none v else jsonStringify (some opts.indent) v

/-- Error kinds of the pipeline, per the error classification design. -/
inductive ErrKind where
  | syntaxError : ErrKind
  | unknownError : ErrKind
deriving DecidableEq

/-- A classified pipeline error with its display message. -/
structure JErr where
  kind : ErrKind
  message : String
deriving DecidableEq

/-- Heuristic of parseJson lines 77 to 78: the trimmed string both starts
with an opening brace and ends with a closing brace, or both starts with an
opening bracket and ends with a closing bracket. -/
def looksJson (t : List Nat) : Bool :=
  (t.head? == some 0x7B && t.getLast? == some 0x7D) ||
  (t.head? == some 0x5B && t.getLast? == some 0x5D)

/-- The one-level double-encoding recovery of parseJson lines 74 to 87: a
string result that looks like JSON once trimmed is speculatively reparsed;
on success the inner value replaces it, on failure the original untrimmed
string is kept; a non-string result passes through untouched. -/
def recover : Jv → Jv
  | .str s =>
    if looksJson (jsTrim s) then
      match jsonParse (jsTrim s) with
      | .ok inner => inner
      | .error _ => .str s
    else .str s
  | v => v

/-- The parseJson normalizer (JsonFormatter.tsx lines 61 to 96): trim, map
empty input to the null value without parsing, parse strictly, apply the
recovery, and classify a parse failure as a syntax error with the engine
diagnostic behind an Invalid JSON prefix. -/
def parseJson (text : List Nat) : Except JErr Jv :=
  let cleaned := jsTrim text
  if cleaned = [] then .ok .null
  else
    match jsonParse cleaned with
    | .ok parsed => .ok (recover parsed)
    | .error m => .error ⟨.syntaxError, "Invalid JSON: " ++ m⟩

/-- The component state the pipeline writes: the output text area and the
error banner. -/
structure UiState where
  output : List Nat
  error : Option String

/-- The formatJson handler (lines 98 to 114): on success it clears the error
and writes the stringified value, on failure it records the message and
clears the output; the previous state is fully overwritten either way. -/
def formatJson (text : List Nat) (opts : FormatOptions) (_prev : UiState) : UiState :=
  match parseJson text with
  | .ok parsed => { output := formatValue opts parsed, error := none }
  | .error e => { output := [], error := some e.message }

/-- The handleInputChange handler (lines 116 to 127): nonempty trimmed input
is formatted, otherwise output and error are cleared. -/
def handleInputChange (newInput : List Nat) (options : FormatOptions) (prev : UiState) : UiState :=
  if jsTrim newInput ≠ [] then formatJson newInput options prev
  else { output := [], error := none }

/-- The key is bound by none of the members. -/
def keyAbsent (k : List Nat) : List (List Nat × Jv) → Bool
  | [] => true
  | (k0, _) :: ms => decide (k0 ≠ k) && keyAbsent k ms

mutual

/-- Well-formed value: number lexemes are complete runs of the number
grammar, and object keys are distinct, as the parser guarantees. -/
def wfVal : Jv → Bool
  | .null => true
  | .bool _ => true
  | .num lx => scanNumber lx == some (lx, [])
  | .str _ => true
  | .arr xs => wfSeq xs
  | .obj ms => wfMems ms

/-- Well-formedness of every element of an array. -/
def wfSeq : List Jv → Bool
  | [] => true
  | x :: xs => wfVal x && wfSeq xs

/-- Well-formedness of an object member list: fresh keys, well-formed
values. -/
def wfMems : List (List Nat × Jv) → Bool
  | [] => true
  | (k, v) :: ms => keyAbsent k ms && wfVal v && wfMems ms

end

/-- The remainder cannot extend a number lexeme: empty, or headed by a unit
that is no digit and none of the dot or exponent markers. Every context the
serializer puts after a value (comma, newline, closing bracket or brace, end
of input) qualifies. -/
def goodFollow : List Nat → Bool
  | [] => true
  | c :: _ => !(isDigit c || c == 0x2E || c == 0x65 || c == 0x45)

/-- Head unit is a digit. -/
def headDigit : List Nat → Bool
  | [] => false
  | c :: _ => isDigit c

theorem skipWs_cons_not {c : Nat} (h : isJsonWs c = false) (t : List Nat) :
    skipWs (c :: t) = c :: t := by
  simp [skipWs, h]

theorem skipWs_wsLead (w : List Nat) (hw : ∀ c ∈ w, isJsonWs c = true) (t : List Nat) :
    skipWs (w ++ t) = skipWs t := by
  induction w with
  | nil => rfl
  | cons c w ih =>
    have hc : isJsonWs c = true := hw c (by simp)
    simp only [List.cons_append, skipWs, hc, if_true]
    exact ih (fun x hx => hw x (by simp [hx]))

theorem takeDigits_sound : ∀ {l ds r : List Nat}, takeDigits l = (ds, r) →
    l = ds ++ r ∧ ∀ c ∈ ds, isDigit c = true := by
  intro l
  induction l with
  | nil =>
    intro ds r h
    simp only [takeDigits, Prod.mk.injEq] at h
    obtain ⟨h1, h2⟩ := h
    subst h1; subst h2
    simp
  | cons c t ih =>
    intro ds r h
    rcases htd : takeDigits t with ⟨ds0, r0⟩
    obtain ⟨ht, hall⟩ := ih htd
    by_cases hc : isDigit c = true
    · simp only [takeDigits, htd] at h
      rw [if_pos hc] at h
      injection h with h1 h2
      subst h1; subst h2
      refine ⟨by simp [ht], ?_⟩
      intro x hx
      rcases List.mem_cons.mp hx with rfl | hx2
      · exact hc
      · exact hall x hx2
    · simp only [takeDigits, htd] at h
      rw [if_neg hc] at h
      injection h with h1 h2
      subst h1; subst h2
      simp

theorem takeDigits_stop {l : List Nat} (h : headDigit l = false) : takeDigits l = ([], l) := by
  cases l with
  | nil => rfl
  | cons c t =>
    simp only [headDigit] at h
    simp [takeDigits, h]

theorem takeDigits_feed {ds : List Nat} (hds : ∀ c ∈ ds, isDigit c = true)
    {t : List Nat} (ht : headDigit t = false) : takeDigits (ds ++ t) = (ds, t) := by
  induction ds with
  | nil => simpa using takeDigits_stop ht
  | cons c d ih =>
    have hc : isDigit c = true := hds c (by simp)
    have hd := ih (fun x hx => hds x (by simp [hx]))
    simp [takeDigits, hc, hd]

/-- Head unit equals the given unit. -/
def headIs (x : Nat) : List Nat → Bool
  | [] => false
  | c :: _ => c == x

theorem isDigit_range {c : Nat} (h : isDigit c = true) : 0x30 ≤ c ∧ c ≤ 0x39 := by
  simpa [isDigit] using h

theorem goodFollow_props {t : List Nat} (ht : goodFollow t = true) :
    headDigit t = false ∧ headIs 0x2E t = false ∧ headIs 0x65 t = false ∧
      headIs 0x45 t = false := by
  cases t with
  | nil => exact ⟨rfl, rfl, rfl, rfl⟩
  | cons c u =>
    simp only [goodFollow, Bool.not_eq_true', Bool.or_eq_false_iff] at ht
    simp [headDigit, headIs, ht.1.1.1, ht.1.1.2, ht.1.2, ht.2]

theorem digits_last {ds : List Nat} (hne : ds ≠ []) (hds : ∀ c ∈ ds, isDigit c = true) :
    ∃ d, ds.getLast? = some d ∧ isDigit d = true := by
  induction ds with
  | nil => cases hne rfl
  | cons c t ih =>
    cases t with
    | nil => exact ⟨c, rfl, hds c (by simp)⟩
    | cons e u =>
      obtain ⟨d, hd, hdig⟩ := ih (by simp) (fun x hx => hds x (by simp [hx]))
      exact ⟨d, by rw [List.getLast?_cons_cons]; exact hd, hdig⟩

theorem scanInt_sound : ∀ {l ip r : List Nat}, scanInt l = some (ip, r) →
    l = ip ++ r ∧ ∃ d ds, ip = d :: ds ∧ isDigit d = true ∧ ∀ c ∈ ds, isDigit c = true := by
  intro l ip r h
  cases l with
  | nil => simp [scanInt] at h
  | cons c t =>
    by_cases h0 : c = 0x30
    · simp only [scanInt] at h
      rw [if_pos h0] at h
      injection h with h1
      injection h1 with ha hb
      subst ha; subst hb
      exact ⟨rfl, c, [], rfl, by rw [h0]; decide, by simp⟩
    · rcases htd : takeDigits t with ⟨ds0, r0⟩
      obtain ⟨ht, hall⟩ := takeDigits_sound htd
      by_cases hd : isDigit c = true
      · simp only [scanInt, htd] at h
        rw [if_neg h0, if_pos hd] at h
        injection h with h1
        injection h1 with ha hb
        subst ha; subst hb
        exact ⟨by simp [ht], c, ds0, rfl, hd, hall⟩
      · simp only [scanInt] at h
        rw [if_neg h0, if_neg hd] at h
        cases h

theorem scanInt_feed : ∀ {l ip r : List Nat}, scanInt l = some (ip, r) →
    ∀ {t : List Nat}, headDigit t = false → scanInt (ip ++ t) = some (ip, t) := by
  intro l ip r h t ht
  cases l with
  | nil => simp [scanInt] at h
  | cons c t0 =>
    by_cases h0 : c = 0x30
    · simp only [scanInt] at h
      rw [if_pos h0] at h
      injection h with h1
      injection h1 with ha hb
      subst ha; subst h0
      simp [scanInt]
    · rcases htd : takeDigits t0 with ⟨ds0, r0⟩
      obtain ⟨ht0, hall⟩ := takeDigits_sound htd
      by_cases hd : isDigit c = true
      · simp only [scanInt, htd] at h
        rw [if_neg h0, if_pos hd] at h
        injection h with h1
        injection h1 with ha hb
        subst ha
        have hfeed := takeDigits_feed hall ht
        simp only [List.cons_append, scanInt, hfeed]
        rw [if_neg h0, if_pos hd]
      · simp only [scanInt] at h
        rw [if_neg h0, if_neg hd] at h
        cases h

theorem scanFrac_sound : ∀ {l fp r : List Nat}, scanFrac l = some (fp, r) →
    l = fp ++ r ∧ (fp = [] ∨ ∃ ds, fp = 0x2E :: ds ∧ ds ≠ [] ∧ ∀ c ∈ ds, isDigit c = true) := by
  intro l fp r h
  cases l with
  | nil =>
    simp only [scanFrac] at h
    injection h with h1
    injection h1 with ha hb
    subst ha; subst hb
    simp
  | cons c t =>
    by_cases hdot : c = 0x2E
    · rcases htd : takeDigits t with ⟨ds0, r0⟩
      obtain ⟨ht0, hall⟩ := takeDigits_sound htd
      by_cases hemp : ds0.isEmpty = true
      · simp only [scanFrac, htd] at h
        rw [if_pos hdot, if_pos hemp] at h
        cases h
      · simp only [scanFrac, htd] at h
        rw [if_pos hdot, if_neg hemp] at h
        injection h with h1
        injection h1 with ha hb
        subst ha; subst hb; subst hdot
        refine ⟨by simp [ht0], Or.inr ⟨ds0, rfl, ?_, hall⟩⟩
        simpa [List.isEmpty_iff] using hemp
    · simp only [scanFrac] at h
      rw [if_neg hdot] at h
      injection h with h1
      injection h1 with ha hb
      subst ha; subst hb
      simp

theorem scanFrac_feed : ∀ {l fp r : List Nat}, scanFrac l = some (fp, r) →
    ∀ {t : List Nat}, headDigit t = false → headIs 0x2E t = false →
      scanFrac (fp ++ t) = some (fp, t) := by
  intro l fp r h t ht hdot2
  obtain ⟨-, hshape⟩ := scanFrac_sound h
  rcases hshape with rfl | ⟨ds, rfl, hne, hall⟩
  · cases t with
    | nil => rfl
    | cons c u =>
      have : (c == 0x2E) = false := by simpa [headIs] using hdot2
      simp only [List.nil_append, scanFrac]
      rw [if_neg (by simpa using this)]
  · have hfeed := takeDigits_feed hall ht
    simp only [List.cons_append, scanFrac, hfeed]
    rw [if_pos trivial, if_neg (by simpa [List.isEmpty_iff] using hne)]

theorem scanExp_sound : ∀ {l ep r : List Nat}, scanExp l = some (ep, r) →
    l = ep ++ r ∧ (ep = [] ∨
      (∃ e s ds, ep = e :: s :: ds ∧ (e = 0x65 ∨ e = 0x45) ∧ (s = 0x2B ∨ s = 0x2D) ∧
        ds ≠ [] ∧ ∀ c ∈ ds, isDigit c = true) ∨
      (∃ e ds, ep = e :: ds ∧ (e = 0x65 ∨ e = 0x45) ∧ ds ≠ [] ∧
        ∀ c ∈ ds, isDigit c = true)) := by
  intro l ep r h
  cases l with
  | nil =>
    simp only [scanExp] at h
    injection h with h1
    injection h1 with ha hb
    subst ha; subst hb
    simp
  | cons c t =>
    by_cases he : c = 0x65 ∨ c = 0x45
    · cases t with
      | nil =>
        simp only [scanExp] at h
        rw [if_pos he] at h
        cases h
      | cons s r2 =>
        by_cases hs : s = 0x2B ∨ s = 0x2D
        · rcases htd : takeDigits r2 with ⟨ds0, r0⟩
          obtain ⟨ht0, hall⟩ := takeDigits_sound htd
          by_cases hemp : ds0.isEmpty = true
          · simp only [scanExp, htd] at h
            rw [if_pos he, if_pos hs, if_pos hemp] at h
            cases h
          · simp only [scanExp, htd] at h
            rw [if_pos he, if_pos hs, if_neg hemp] at h
            injection h with h1
            injection h1 with ha hb
            subst ha; subst hb
            refine ⟨by simp [ht0], Or.inr (Or.inl ⟨c, s, ds0, rfl, he, hs, ?_, hall⟩)⟩
            simpa [List.isEmpty_iff] using hemp
        · rcases htd : takeDigits (s :: r2) with ⟨ds0, r0⟩
          obtain ⟨ht0, hall⟩ := takeDigits_sound htd
          by_cases hemp : ds0.isEmpty = true
          · simp only [scanExp, htd] at h
            rw [if_pos he, if_neg hs, if_pos hemp] at h
            cases h
          · simp only [scanExp, htd] at h
            rw [if_pos he, if_neg hs, if_neg hemp] at h
            injection h with h1
            injection h1 with ha hb
            subst ha; subst hb
            refine ⟨by simp [ht0], Or.inr (Or.inr ⟨c, ds0, rfl, he, ?_, hall⟩)⟩
            simpa [List.isEmpty_iff] using hemp
    · simp only [scanExp] at h
      rw [if_neg he] at h
      injection h with h1
      injection h1 with ha hb
      subst ha; subst hb
      simp

theorem scanExp_feed : ∀ {l ep r : List Nat}, scanExp l = some (ep, r) →
    ∀ {t : List Nat}, headDigit t = false → headIs 0x65 t = false → headIs 0x45 t = false →
      scanExp (ep ++ t) = some (ep, t) := by
  intro l ep r h t ht he65 he45
  obtain ⟨-, hshape⟩ := scanExp_sound h
  rcases hshape with rfl | ⟨e, s, ds, rfl, he, hs, hne, hall⟩ | ⟨e, ds, rfl, he, hne, hall⟩
  · cases t with
    | nil => rfl
    | cons c u =>
      have h1 : (c == 0x65) = false := by simpa [headIs] using he65
      have h2 : (c == 0x45) = false := by simpa [headIs] using he45
      simp only [List.nil_append, scanExp]
      rw [if_neg]
      simp only [beq_eq_false_iff_ne, ne_eq] at h1 h2
      rintro (rfl | rfl)
      · exact h1 rfl
      · exact h2 rfl
  · have hfeed := takeDigits_feed hall ht
    simp only [List.cons_append, scanExp, hfeed]
    rw [if_pos he, if_pos hs, if_neg (by simpa [List.isEmpty_iff] using hne)]
  · cases ds with
    | nil => cases hne rfl
    | cons d ds2 =>
      have hd : isDigit d = true := hall d (by simp)
      have hds : ¬(d = 0x2B ∨ d = 0x2D) := by
        obtain ⟨hlo, -⟩ := isDigit_range hd
        rintro (rfl | rfl) <;> omega
      have hfeed : takeDigits (d :: ds2 ++ t) = (d :: ds2, t) := takeDigits_feed hall ht
      simp only [List.cons_append] at hfeed
      simp only [List.cons_append, scanExp, hfeed]
      rw [if_pos he, if_neg hds, if_neg (by simp)]

theorem scanNumTail_inv {l lx r : List Nat} (h : scanNumTail l = some (lx, r)) :
    ∃ ip l2 fp l3 ep, scanInt l = some (ip, l2) ∧ scanFrac l2 = some (fp, l3) ∧
      scanExp l3 = some (ep, r) ∧ lx = ip ++ fp ++ ep := by
  unfold scanNumTail at h
  split at h
  · cases h
  · rename_i ip l2 hI
    split at h
    · cases h
    · rename_i fp l3 hF
      split at h
      · cases h
      · rename_i ep l4 hE
        injection h with h1
        injection h1 with ha hb
        subst hb
        exact ⟨ip, l2, fp, l3, ep, hI, hF, hE, ha.symm⟩

theorem scanNumTail_feed {l lx r : List Nat} (h : scanNumTail l = some (lx, r))
    {t : List Nat} (ht : goodFollow t = true) : scanNumTail (lx ++ t) = some (lx, t) := by
  obtain ⟨ip, l2, fp, l3, ep, hI, hF, hE, rfl⟩ := scanNumTail_inv h
  obtain ⟨htd, hdot, h65, h45⟩ := goodFollow_props ht
  obtain ⟨-, hfshape⟩ := scanFrac_sound hF
  obtain ⟨-, heshape⟩ := scanExp_sound hE
  have hbar1 : headDigit (fp ++ (ep ++ t)) = false := by
    rcases hfshape with rfl | ⟨ds, rfl, -, -⟩
    · rcases heshape with rfl | ⟨e, s, ds, rfl, he, -, -, -⟩ | ⟨e, ds, rfl, he, -, -⟩
      · simpa using htd
      · rcases he with rfl | rfl <;> rfl
      · rcases he with rfl | rfl <;> rfl
    · rfl
  have hbar2 : headDigit (ep ++ t) = false ∧ headIs 0x2E (ep ++ t) = false := by
    rcases heshape with rfl | ⟨e, s, ds, rfl, he, -, -, -⟩ | ⟨e, ds, rfl, he, -, -⟩
    · exact ⟨by simpa using htd, by simpa using hdot⟩
    · rcases he with rfl | rfl <;> exact ⟨rfl, rfl⟩
    · rcases he with rfl | rfl <;> exact ⟨rfl, rfl⟩
  have hIf : scanInt (ip ++ (fp ++ (ep ++ t))) = some (ip, fp ++ (ep ++ t)) :=
    scanInt_feed hI hbar1
  have hFf : scanFrac (fp ++ (ep ++ t)) = some (fp, ep ++ t) :=
    scanFrac_feed hF hbar2.1 hbar2.2
  have hEf : scanExp (ep ++ t) = some (ep, t) := scanExp_feed hE htd h65 h45
  unfold scanNumTail
  simp only [List.append_assoc, hIf, hFf, hEf]

theorem scanNumber_feed {l lx r : List Nat} (h : scanNumber l = some (lx, r))
    {t : List Nat} (ht : goodFollow t = true) : scanNumber (lx ++ t) = some (lx, t) := by
  cases l with
  | nil => cases h
  | cons c r0 =>
    by_cases hm : c = 0x2D
    · simp only [scanNumber] at h
      rw [if_pos hm] at h
      rcases hT : scanNumTail r0 with _ | ⟨lx2, rest⟩
      · rw [hT] at h; cases h
      · rw [hT] at h
        injection h with h1
        injection h1 with ha hb
        subst ha; subst hb; subst hm
        have hTf := scanNumTail_feed hT ht
        simp only [List.cons_append, scanNumber, hTf]
        rw [if_pos trivial]
    · simp only [scanNumber] at h
      rw [if_neg hm] at h
      obtain ⟨ip, l2, fp, l3, ep, hI, hF, hE, hshape⟩ := scanNumTail_inv h
      obtain ⟨-, d, ds, hip, hd, -⟩ := scanInt_sound hI
      have hTf := scanNumTail_feed h ht
      have hdm : d ≠ 0x2D := by
        obtain ⟨hlo, -⟩ := isDigit_range hd
        intro hcon; omega
      have hcons : ∃ u, lx = d :: u := by
        subst hshape; subst hip
        exact ⟨ds ++ fp ++ ep, by simp⟩
      obtain ⟨u, hu⟩ := hcons
      rw [hu]
      simp only [List.cons_append, scanNumber]
      rw [if_neg hdm]
      rw [hu] at hTf
      simpa using hTf

theorem scanNumber_wfNum {l lx r : List Nat} (h : scanNumber l = some (lx, r)) :
    scanNumber lx = some (lx, []) := by
  have := @scanNumber_feed l lx r h [] rfl
  simpa using this

/-- Units a number lexeme can contain. -/
def numUnit (c : Nat) : Bool :=
  isDigit c || c == 0x2D || c == 0x2B || c == 0x2E || c == 0x65 || c == 0x45

theorem scanNumber_inv {l lx r : List Nat} (h : scanNumber l = some (lx, r)) :
    ∃ d u, lx = d :: u ∧ (d = 0x2D ∨ isDigit d = true) := by
  cases l with
  | nil => cases h
  | cons c r0 =>
    by_cases hm : c = 0x2D
    · simp only [scanNumber] at h
      rw [if_pos hm] at h
      rcases hT : scanNumTail r0 with _ | ⟨lx2, rest⟩
      · rw [hT] at h; cases h
      · rw [hT] at h
        injection h with h1
        injection h1 with ha hb
        subst ha
        exact ⟨c, lx2, rfl, Or.inl hm⟩
    · simp only [scanNumber] at h
      rw [if_neg hm] at h
      obtain ⟨ip, l2, fp, l3, ep, hI, hF, hE, hshape⟩ := scanNumTail_inv h
      obtain ⟨-, d, ds, hip, hd, -⟩ := scanInt_sound hI
      subst hshape; subst hip
      exact ⟨d, ds ++ fp ++ ep, by simp, Or.inr hd⟩

theorem scanNumTail_last {l lx r : List Nat} (h : scanNumTail l = some (lx, r)) :
    ∃ d, lx.getLast? = some d ∧ isDigit d = true := by
  obtain ⟨ip, l2, fp, l3, ep, hI, hF, hE, rfl⟩ := scanNumTail_inv h
  obtain ⟨-, d0, ds0, hip, hd0, hds0⟩ := scanInt_sound hI
  obtain ⟨-, hfshape⟩ := scanFrac_sound hF
  obtain ⟨-, heshape⟩ := scanExp_sound hE
  rcases heshape with rfl | ⟨e, s, ds, rfl, -, -, hne, hall⟩ | ⟨e, ds, rfl, -, hne, hall⟩
  · rcases hfshape with rfl | ⟨ds, rfl, hne, hall⟩
    · have hipne : ip ≠ [] := by rw [hip]; simp
      have hipdig : ∀ c ∈ ip, isDigit c = true := by
        intro x hx
        rw [hip] at hx
        rcases List.mem_cons.mp hx with rfl | hx2
        exacts [hd0, hds0 x hx2]
      obtain ⟨d, hd, hdig⟩ := digits_last hipne hipdig
      exact ⟨d, by simpa using hd, hdig⟩
    · obtain ⟨d, hd, hdig⟩ := digits_last hne hall
      refine ⟨d, ?_, hdig⟩
      rw [List.append_nil, List.getLast?_append_of_ne_nil _ (by simp)]
      rw [show (0x2E :: ds).getLast? = ds.getLast? from
        List.getLast?_append_of_ne_nil [0x2E] hne]
      exact hd
  · obtain ⟨d, hd, hdig⟩ := digits_last hne hall
    refine ⟨d, ?_, hdig⟩
    rw [List.getLast?_append_of_ne_nil _ (by simp)]
    rw [show (e :: s :: ds).getLast? = ds.getLast? from
      List.getLast?_append_of_ne_nil [e, s] hne]
    exact hd
  · obtain ⟨d, hd, hdig⟩ := digits_last hne hall
    refine ⟨d, ?_, hdig⟩
    rw [List.getLast?_append_of_ne_nil _ (by simp)]
    rw [show (e :: ds).getLast? = ds.getLast? from
      List.getLast?_append_of_ne_nil [e] hne]
    exact hd

theorem scanNumber_last {l lx r : List Nat} (h : scanNumber l = some (lx, r)) :
    ∃ d, lx.getLast? = some d ∧ isDigit d = true := by
  cases l with
  | nil => cases h
  | cons c r0 =>
    by_cases hm : c = 0x2D
    · simp only [scanNumber] at h
      rw [if_pos hm] at h
      rcases hT : scanNumTail r0 with _ | ⟨lx2, rest⟩
      · rw [hT] at h; cases h
      · rw [hT] at h
        injection h with h1
        injection h1 with ha hb
        subst ha
        obtain ⟨d, hd, hdig⟩ := scanNumTail_last hT
        have hne : lx2 ≠ [] := by
          intro hcon
          rw [hcon] at hd
          cases hd
        exact ⟨d, by rw [show (c :: lx2).getLast? = lx2.getLast? from
          List.getLast?_append_of_ne_nil [c] hne]; exact hd, hdig⟩
    · simp only [scanNumber] at h
      rw [if_neg hm] at h
      exact scanNumTail_last h

theorem scanNumTail_chars {l lx r : List Nat} (h : scanNumTail l = some (lx, r)) :
    ∀ c ∈ lx, numUnit c = true := by
  obtain ⟨ip, l2, fp, l3, ep, hI, hF, hE, rfl⟩ := scanNumTail_inv h
  obtain ⟨-, d0, ds0, hip, hd0, hds0⟩ := scanInt_sound hI
  obtain ⟨-, hfshape⟩ := scanFrac_sound hF
  obtain ⟨-, heshape⟩ := scanExp_sound hE
  intro c hc
  rcases List.mem_append.mp hc with hc2 | hcep
  · rcases List.mem_append.mp hc2 with hcip | hcfp
    · subst hip
      rcases List.mem_cons.mp hcip with rfl | hx
      · simp [numUnit, hd0]
      · simp [numUnit, hds0 c hx]
    · rcases hfshape with rfl | ⟨ds, rfl, -, hall⟩
      · cases hcfp
      · rcases List.mem_cons.mp hcfp with rfl | hx
        · decide
        · simp [numUnit, hall c hx]
  · rcases heshape with rfl | ⟨e, s, ds, rfl, he, hs, -, hall⟩ | ⟨e, ds, rfl, he, -, hall⟩
    · cases hcep
    · rcases List.mem_cons.mp hcep with rfl | hx
      · rcases he with rfl | rfl <;> decide
      · rcases List.mem_cons.mp hx with rfl | hx2
        · rcases hs with rfl | rfl <;> decide
        · simp [numUnit, hall c hx2]
    · rcases List.mem_cons.mp hcep with rfl | hx
      · rcases he with rfl | rfl <;> decide
      · simp [numUnit, hall c hx]

theorem scanNumber_chars {l lx r : List Nat} (h : scanNumber l = some (lx, r)) :
    ∀ c ∈ lx, numUnit c = true := by
  cases l with
  | nil => cases h
  | cons c r0 =>
    by_cases hm : c = 0x2D
    · simp only [scanNumber] at h
      rw [if_pos hm] at h
      rcases hT : scanNumTail r0 with _ | ⟨lx2, rest⟩
      · rw [hT] at h; cases h
      · rw [hT] at h
        injection h with h1
        injection h1 with ha hb
        subst ha
        intro x hx
        rcases List.mem_cons.mp hx with rfl | hx2
        · simp [numUnit, hm]
        · exact scanNumTail_chars hT x hx2
    · simp only [scanNumber] at h
      rw [if_neg hm] at h
      exact scanNumTail_chars h

theorem hexVal_hexDig {x : Nat} (h : x < 16) : hexVal (hexDig x) = some x := by
  interval_cases x <;> rfl

theorem parseStrBody_uescape (c : Nat) (hc : c < 0x10000) (u : List Nat) :
    parseStrBody (0x5C :: 0x75 :: (toHex4 c ++ u)) =
      (match parseStrBody u with
       | some (s, rest) => some (c :: s, rest)
       | none => none) := by
  have h16 : ∀ k : Nat, k % 16 < 16 := fun k => Nat.mod_lt _ (by omega)
  have e1 := hexVal_hexDig (h16 (c / 4096))
  have e2 := hexVal_hexDig (h16 (c / 256))
  have e3 := hexVal_hexDig (h16 (c / 16))
  have e4 := hexVal_hexDig (h16 c)
  have harith : ((c / 4096 % 16 * 16 + c / 256 % 16) * 16 + c / 16 % 16) * 16 + c % 16 = c := by
    omega
  simp only [toHex4, List.cons_append, List.nil_append, parseStrBody]
  norm_num
  simp only [e1, e2, e3, e4, harith]

theorem escBody_nil : escBody [] = [] := by
  rw [escBody.eq_def]

theorem parseStrBody_quote (t : List Nat) : parseStrBody (0x22 :: t) = some ([], t) := by
  rw [parseStrBody.eq_def]
  dsimp only
  rw [if_pos rfl]

theorem parseStrBody_raw {c : Nat} (h1 : ¬c = 0x22) (h2 : ¬c = 0x5C) (h3 : 0x20 ≤ c)
    (r : List Nat) :
    parseStrBody (c :: r) =
      (match parseStrBody r with
       | some (s, rest) => some (c :: s, rest)
       | none => none) := by
  rw [parseStrBody.eq_def]
  dsimp only
  rw [if_neg h1, if_neg h2, if_pos (by simpa using h3)]

theorem parseStrBody_shortesc {e u : Nat} (he : ¬e = 0x75) (hu : escUnit e = some u)
    (t : List Nat) :
    parseStrBody (0x5C :: e :: t) =
      (match parseStrBody t with
       | some (s, rest) => some (u :: s, rest)
       | none => none) := by
  rw [parseStrBody.eq_def]
  dsimp only
  rw [if_neg (by decide), if_pos rfl, if_neg he, hu]

theorem parseStrBody_escBody : ∀ s t : List Nat,
    parseStrBody (escBody s ++ (0x22 :: t)) = some (s, t) := by
  intro s
  induction s using escBody.induct with
  | case1 =>
    intro t
    rw [escBody_nil, List.nil_append, parseStrBody_quote]
  | case2 r ih =>
    intro t
    have hesc : escBody (0x22 :: r) = 0x5C :: 0x22 :: escBody r := by
      rw [escBody.eq_def]
      dsimp only
      rw [if_pos rfl]
    rw [hesc, List.cons_append, List.cons_append,
      parseStrBody_shortesc (by decide) (by decide : escUnit 0x22 = some 0x22), ih]
  | case3 r h1 ih =>
    intro t
    have hesc : escBody (0x5C :: r) = 0x5C :: 0x5C :: escBody r := by
      rw [escBody.eq_def]
      dsimp only
      rw [if_neg (by decide), if_pos rfl]
    rw [hesc, List.cons_append, List.cons_append,
      parseStrBody_shortesc (by decide) (by decide : escUnit 0x5C = some 0x5C), ih]
  | case4 r h1 h2 ih =>
    intro t
    have hesc : escBody (0x08 :: r) = 0x5C :: 0x62 :: escBody r := by
      rw [escBody.eq_def]
      dsimp only
      rw [if_neg (by decide), if_neg (by decide), if_pos rfl]
    rw [hesc, List.cons_append, List.cons_append,
      parseStrBody_shortesc (by decide) (by decide : escUnit 0x62 = some 0x08), ih]
  | case5 r h1 h2 h3 ih =>
    intro t
    have hesc : escBody (0x0C :: r) = 0x5C :: 0x66 :: escBody r := by
      rw [escBody.eq_def]
      dsimp only
      rw [if_neg (by decide), if_neg (by decide), if_neg (by decide), if_pos rfl]
    rw [hesc, List.cons_append, List.cons_append,
      parseStrBody_shortesc (by decide) (by decide : escUnit 0x66 = some 0x0C), ih]
  | case6 r h1 h2 h3 h4 ih =>
    intro t
    have hesc : escBody (0x0A :: r) = 0x5C :: 0x6E :: escBody r := by
      rw [escBody.eq_def]
      dsimp only
      rw [if_neg (by decide), if_neg (by decide), if_neg (by decide), if_neg (by decide),
        if_pos rfl]
    rw [hesc, List.cons_append, List.cons_append,
      parseStrBody_shortesc (by decide) (by decide : escUnit 0x6E = some 0x0A), ih]
  | case7 r h1 h2 h3 h4 h5 ih =>
    intro t
    have hesc : escBody (0x0D :: r) = 0x5C :: 0x72 :: escBody r := by
      rw [escBody.eq_def]
      dsimp only
      rw [if_neg (by decide), if_neg (by decide), if_neg (by decide), if_neg (by decide),
        if_neg (by decide), if_pos rfl]
    rw [hesc, List.cons_append, List.cons_append,
      parseStrBody_shortesc (by decide) (by decide : escUnit 0x72 = some 0x0D), ih]
  | case8 r h1 h2 h3 h4 h5 h6 ih =>
    intro t
    have hesc : escBody (0x09 :: r) = 0x5C :: 0x74 :: escBody r := by
      rw [escBody.eq_def]
      dsimp only
      rw [if_neg (by decide), if_neg (by decide), if_neg (by decide), if_neg (by decide),
        if_neg (by decide), if_neg (by decide), if_pos rfl]
    rw [hesc, List.cons_append, List.cons_append,
      parseStrBody_shortesc (by decide) (by decide : escUnit 0x74 = some 0x09), ih]
  | case9 c r h1 h2 h3 h4 h5 h6 h7 hlt ih =>
    intro t
    have hesc : escBody (c :: r) = 0x5C :: 0x75 :: (toHex4 c ++ escBody r) := by
      rw [escBody.eq_def]
      dsimp only
      rw [if_neg h1, if_neg h2, if_neg h3, if_neg h4, if_neg h5, if_neg h6, if_neg h7,
        if_pos hlt]
    rw [hesc]
    rw [show (0x5C : Nat) :: 0x75 :: (toHex4 c ++ escBody r) ++ 0x22 :: t
      = 0x5C :: 0x75 :: (toHex4 c ++ (escBody r ++ 0x22 :: t)) by simp]
    rw [parseStrBody_uescape c (by omega) (escBody r ++ 0x22 :: t), ih]
  | case10 c h1 h2 h3 h4 h5 h6 h7 h8 hld d r2 htr ih =>
    intro t
    have hesc : escBody (c :: d :: r2) = c :: d :: escBody r2 := by
      rw [escBody.eq_def]
      dsimp only
      rw [if_neg h1, if_neg h2, if_neg h3, if_neg h4, if_neg h5, if_neg h6, if_neg h7,
        if_neg h8, if_pos hld, if_pos htr]
    obtain ⟨hcl, hcu⟩ : 0xD800 ≤ c ∧ c ≤ 0xDBFF := by simpa [isLead] using hld
    obtain ⟨hdl, hdu⟩ : 0xDC00 ≤ d ∧ d ≤ 0xDFFF := by simpa [isTrail] using htr
    rw [hesc, List.cons_append, List.cons_append,
      parseStrBody_raw h1 h2 (by omega),
      parseStrBody_raw (by omega : ¬d = 0x22) (by omega : ¬d = 0x5C) (by omega), ih]
  | case11 c h1 h2 h3 h4 h5 h6 h7 h8 hld d r2 htr ih =>
    intro t
    have hesc : escBody (c :: d :: r2) = 0x5C :: 0x75 :: (toHex4 c ++ escBody (d :: r2)) := by
      rw [escBody.eq_def]
      dsimp only
      rw [if_neg h1, if_neg h2, if_neg h3, if_neg h4, if_neg h5, if_neg h6, if_neg h7,
        if_neg h8, if_pos hld, if_neg htr]
    obtain ⟨hcl, hcu⟩ : 0xD800 ≤ c ∧ c ≤ 0xDBFF := by simpa [isLead] using hld
    rw [hesc]
    rw [show (0x5C : Nat) :: 0x75 :: (toHex4 c ++ escBody (d :: r2)) ++ 0x22 :: t
      = 0x5C :: 0x75 :: (toHex4 c ++ (escBody (d :: r2) ++ 0x22 :: t)) by simp]
    rw [parseStrBody_uescape c (by omega) (escBody (d :: r2) ++ 0x22 :: t), ih]
  | case12 c h1 h2 h3 h4 h5 h6 h7 h8 hld =>
    intro t
    have hesc : escBody (c :: []) = 0x5C :: 0x75 :: toHex4 c := by
      rw [escBody.eq_def]
      dsimp only
      rw [if_neg h1, if_neg h2, if_neg h3, if_neg h4, if_neg h5, if_neg h6, if_neg h7,
        if_neg h8, if_pos hld]
    obtain ⟨hcl, hcu⟩ : 0xD800 ≤ c ∧ c ≤ 0xDBFF := by simpa [isLead] using hld
    rw [hesc]
    rw [show (0x5C : Nat) :: 0x75 :: toHex4 c ++ 0x22 :: t
      = 0x5C :: 0x75 :: (toHex4 c ++ (0x22 :: t)) by simp]
    rw [parseStrBody_uescape c (by omega) (0x22 :: t), parseStrBody_quote]
  | case13 c r h1 h2 h3 h4 h5 h6 h7 h8 h9 htr ih =>
    intro t
    have hesc : escBody (c :: r) = 0x5C :: 0x75 :: (toHex4 c ++ escBody r) := by
      rw [escBody.eq_def]
      dsimp only
      rw [if_neg h1, if_neg h2, if_neg h3, if_neg h4, if_neg h5, if_neg h6, if_neg h7,
        if_neg h8, if_neg h9, if_pos htr]
    obtain ⟨hcl, hcu⟩ : 0xDC00 ≤ c ∧ c ≤ 0xDFFF := by simpa [isTrail] using htr
    rw [hesc]
    rw [show (0x5C : Nat) :: 0x75 :: (toHex4 c ++ escBody r) ++ 0x22 :: t
      = 0x5C :: 0x75 :: (toHex4 c ++ (escBody r ++ 0x22 :: t)) by simp]
    rw [parseStrBody_uescape c (by omega) (escBody r ++ 0x22 :: t), ih]
  | case14 c r h1 h2 h3 h4 h5 h6 h7 h8 h9 h10 ih =>
    intro t
    have hesc : escBody (c :: r) = c :: escBody r := by
      rw [escBody.eq_def]
      dsimp only
      rw [if_neg h1, if_neg h2, if_neg h3, if_neg h4, if_neg h5, if_neg h6, if_neg h7,
        if_neg h8, if_neg h9, if_neg h10]
    rw [hesc, List.cons_append, parseStrBody_raw h1 h2 (by omega), ih]

theorem parseStrBody_serStr (s : List Nat) (u : List Nat) :
    parseStrBody (escBody s ++ [0x22] ++ u) = some (s, u) := by
  rw [show escBody s ++ [0x22] ++ u = escBody s ++ (0x22 :: u) by simp]
  exact parseStrBody_escBody s u

theorem serVal_null (gap ind : List Nat) : serVal gap ind .null = [0x6E, 0x75, 0x6C, 0x6C] := by
  rw [serVal.eq_def]

theorem serVal_true (gap ind : List Nat) : serVal gap ind (.bool true) = [0x74, 0x72, 0x75, 0x65] := by
  rw [serVal.eq_def]

theorem serVal_false (gap ind : List Nat) :
    serVal gap ind (.bool false) = [0x66, 0x61, 0x6C, 0x73, 0x65] := by
  rw [serVal.eq_def]

theorem serVal_num (gap ind lx : List Nat) : serVal gap ind (.num lx) = lx := by
  rw [serVal.eq_def]

theorem serVal_str (gap ind s : List Nat) : serVal gap ind (.str s) = serStr s := by
  rw [serVal.eq_def]

theorem serVal_arrNil (gap ind : List Nat) : serVal gap ind (.arr []) = [0x5B, 0x5D] := by
  rw [serVal.eq_def]

theorem serVal_objNil (gap ind : List Nat) : serVal gap ind (.obj []) = [0x7B, 0x7D] := by
  rw [serVal.eq_def]

theorem serVal_arrCons (gap ind : List Nat) (x : Jv) (xs : List Jv) :
    serVal gap ind (.arr (x :: xs)) =
      if gap.isEmpty then 0x5B :: (serSeq gap ind x xs ++ [0x5D])
      else 0x5B :: 0x0A :: ((ind ++ gap) ++
        (serSeq gap (ind ++ gap) x xs ++ (0x0A :: (ind ++ [0x5D])))) := by
  rw [serVal.eq_def]

theorem serVal_objCons (gap ind : List Nat) (m : List Nat × Jv) (ms : List (List Nat × Jv)) :
    serVal gap ind (.obj (m :: ms)) =
      if gap.isEmpty then 0x7B :: (serMems gap ind m ms ++ [0x7D])
      else 0x7B :: 0x0A :: ((ind ++ gap) ++
        (serMems gap (ind ++ gap) m ms ++ (0x0A :: (ind ++ [0x7D])))) := by
  rw [serVal.eq_def]

theorem serSeq_single (gap ind : List Nat) (x : Jv) : serSeq gap ind x [] = serVal gap ind x := by
  rw [serSeq.eq_def]

theorem serSeq_cons (gap ind : List Nat) (x y : Jv) (ys : List Jv) :
    serSeq gap ind x (y :: ys) =
      serVal gap ind x ++ (itemSep gap ind ++ serSeq gap ind y ys) := by
  rw [serSeq.eq_def]

theorem serMems_single (gap ind : List Nat) (m : List Nat × Jv) :
    serMems gap ind m [] = serMem gap ind m := by
  rw [serMems.eq_def]

theorem serMems_cons (gap ind : List Nat) (m m2 : List Nat × Jv) (ms2 : List (List Nat × Jv)) :
    serMems gap ind m (m2 :: ms2) =
      serMem gap ind m ++ (itemSep gap ind ++ serMems gap ind m2 ms2) := by
  rw [serMems.eq_def]

theorem serMem_eq (gap ind : List Nat) (k : List Nat) (v : Jv) :
    serMem gap ind (k, v) =
      serStr k ++ (0x3A :: ((if gap.isEmpty then [] else [0x20]) ++ serVal gap ind v)) := by
  rw [serMem.eq_def]

theorem isJsWs_ascii {c : Nat} (hlo : 0x21 ≤ c) (hhi : c ≤ 0x7E) : isJsWs c = false := by
  simp only [isJsWs, Bool.or_eq_false_iff, beq_eq_false_iff_ne, ne_eq,
    Bool.and_eq_false_iff, decide_eq_false_iff_not, not_le]
  omega

theorem isJsonWs_ascii {c : Nat} (hlo : 0x21 ≤ c) (hhi : c ≤ 0x7E) : isJsonWs c = false := by
  simp only [isJsonWs, Bool.or_eq_false_iff, beq_eq_false_iff_ne, ne_eq]
  omega

theorem serVal_head (gap ind : List Nat) (v : Jv) (hwf : wfVal v = true) :
    ∃ c t0, serVal gap ind v = c :: t0 ∧ 0x21 ≤ c ∧ c ≤ 0x7B ∧ ¬c = 0x5D ∧ ¬c = 0x7D := by
  cases v with
  | null => exact ⟨0x6E, _, serVal_null gap ind, by omega, by omega, by omega, by omega⟩
  | bool b =>
    cases b with
    | true => exact ⟨0x74, _, serVal_true gap ind, by omega, by omega, by omega, by omega⟩
    | false => exact ⟨0x66, _, serVal_false gap ind, by omega, by omega, by omega, by omega⟩
  | num lx =>
    have hscan : scanNumber lx = some (lx, []) := by
      simpa [wfVal] using hwf
    obtain ⟨d, u, hshape, hd⟩ := scanNumber_inv hscan
    refine ⟨d, u, by rw [serVal_num, hshape], ?_, ?_, ?_, ?_⟩ <;>
      (rcases hd with rfl | hdig
       · omega
       · obtain ⟨hlo, hhi⟩ := isDigit_range hdig; omega)
  | str s => exact ⟨0x22, _, by rw [serVal_str, serStr], by omega, by omega, by omega, by omega⟩
  | arr xs =>
    cases xs with
    | nil => exact ⟨0x5B, _, serVal_arrNil gap ind, by omega, by omega, by omega, by omega⟩
    | cons x xs2 =>
      rw [serVal_arrCons]
      by_cases hg : gap.isEmpty
      · rw [if_pos hg]
        exact ⟨0x5B, _, rfl, by omega, by omega, by omega, by omega⟩
      · rw [if_neg hg]
        exact ⟨0x5B, _, rfl, by omega, by omega, by omega, by omega⟩
  | obj ms =>
    cases ms with
    | nil => exact ⟨0x7B, _, serVal_objNil gap ind, by omega, by omega, by omega, by omega⟩
    | cons m ms2 =>
      rw [serVal_objCons]
      by_cases hg : gap.isEmpty
      · rw [if_pos hg]
        exact ⟨0x7B, _, rfl, by omega, by omega, by omega, by omega⟩
      · rw [if_neg hg]
        exact ⟨0x7B, _, rfl, by omega, by omega, by omega, by omega⟩

theorem serVal_len_pos (gap ind : List Nat) (v : Jv) (hwf : wfVal v = true) :
    1 ≤ (serVal gap ind v).length := by
  obtain ⟨c, t0, heq, -⟩ := serVal_head gap ind v hwf
  rw [heq]
  simp

theorem serVal_last (gap ind : List Nat) (v : Jv) (hwf : wfVal v = true) :
    ∃ c, (serVal gap ind v).getLast? = some c ∧ 0x21 ≤ c ∧ c ≤ 0x7D := by
  cases v with
  | null => exact ⟨0x6C, by rw [serVal_null]; rfl, by omega, by omega⟩
  | bool b =>
    cases b with
    | true => exact ⟨0x65, by rw [serVal_true]; rfl, by omega, by omega⟩
    | false => exact ⟨0x65, by rw [serVal_false]; rfl, by omega, by omega⟩
  | num lx =>
    have hscan : scanNumber lx = some (lx, []) := by
      simpa [wfVal] using hwf
    obtain ⟨d, hd, hdig⟩ := scanNumber_last hscan
    obtain ⟨hlo, hhi⟩ := isDigit_range hdig
    exact ⟨d, by rw [serVal_num]; exact hd, by omega, by omega⟩
  | str s =>
    refine ⟨0x22, ?_, by omega, by omega⟩
    rw [serVal_str, serStr,
      show (0x22 : Nat) :: (escBody s ++ [0x22]) = (0x22 :: escBody s) ++ [0x22] by simp]
    exact List.getLast?_concat _
  | arr xs =>
    cases xs with
    | nil => exact ⟨0x5D, by rw [serVal_arrNil]; rfl, by omega, by omega⟩
    | cons x xs2 =>
      refine ⟨0x5D, ?_, by omega, by omega⟩
      rw [serVal_arrCons]
      by_cases hg : gap.isEmpty
      · rw [if_pos hg,
          show (0x5B : Nat) :: (serSeq gap ind x xs2 ++ [0x5D])
            = (0x5B :: serSeq gap ind x xs2) ++ [0x5D] by simp]
        exact List.getLast?_concat _
      · rw [if_neg hg,
          show (0x5B : Nat) :: 0x0A :: ((ind ++ gap) ++
              (serSeq gap (ind ++ gap) x xs2 ++ (0x0A :: (ind ++ [0x5D]))))
            = (0x5B :: 0x0A :: ((ind ++ gap) ++
              (serSeq gap (ind ++ gap) x xs2 ++ (0x0A :: ind)))) ++ [0x5D] by simp]
        exact List.getLast?_concat _
  | obj ms =>
    cases ms with
    | nil => exact ⟨0x7D, by rw [serVal_objNil]; rfl, by omega, by omega⟩
    | cons m ms2 =>
      refine ⟨0x7D, ?_, by omega, by omega⟩
      rw [serVal_objCons]
      by_cases hg : gap.isEmpty
      · rw [if_pos hg,
          show (0x7B : Nat) :: (serMems gap ind m ms2 ++ [0x7D])
            = (0x7B :: serMems gap ind m ms2) ++ [0x7D] by simp]
        exact List.getLast?_concat _
      · rw [if_neg hg,
          show (0x7B : Nat) :: 0x0A :: ((ind ++ gap) ++
              (serMems gap (ind ++ gap) m ms2 ++ (0x0A :: (ind ++ [0x7D]))))
            = (0x7B :: 0x0A :: ((ind ++ gap) ++
              (serMems gap (ind ++ gap) m ms2 ++ (0x0A :: ind)))) ++ [0x7D] by simp]
        exact List.getLast?_concat _

theorem parseVal_wsLead (f : Nat) (w l : List Nat) (hw : ∀ c ∈ w, isJsonWs c = true) :
    parseVal f (w ++ l) = parseVal f l := by
  cases f with
  | zero =>
    rw [parseVal.eq_def]
    rw [parseVal.eq_def]
  | succ f =>
    rw [parseVal.eq_def]
    rw [parseVal.eq_def]
    dsimp only
    rw [skipWs_wsLead w hw l]

theorem parseElems_wsLead (f : Nat) (w l : List Nat) (hw : ∀ c ∈ w, isJsonWs c = true) :
    parseElems f (w ++ l) = parseElems f l := by
  cases f with
  | zero =>
    rw [parseElems.eq_def]
    rw [parseElems.eq_def]
  | succ f =>
    rw [parseElems.eq_def]
    rw [parseElems.eq_def]
    dsimp only
    rw [parseVal_wsLead f w l hw]

theorem parseMembers_wsLead (f : Nat) (w l : List Nat) (hw : ∀ c ∈ w, isJsonWs c = true) :
    parseMembers f (w ++ l) = parseMembers f l := by
  cases f with
  | zero =>
    rw [parseMembers.eq_def]
    rw [parseMembers.eq_def]
  | succ f =>
    rw [parseMembers.eq_def]
    rw [parseMembers.eq_def]
    dsimp only
    rw [skipWs_wsLead w hw l]

theorem pv_null (f : Nat) (t : List Nat) :
    parseVal (f + 1) (0x6E :: 0x75 :: 0x6C :: 0x6C :: t) = some (.null, t) := by
  rw [parseVal.eq_def]
  dsimp only
  rw [skipWs_cons_not (by decide)]
  dsimp only
  rw [if_neg (by decide), if_neg (by decide), if_neg (by decide), if_pos rfl]

theorem pv_true (f : Nat) (t : List Nat) :
    parseVal (f + 1) (0x74 :: 0x72 :: 0x75 :: 0x65 :: t) = some (.bool true, t) := by
  rw [parseVal.eq_def]
  dsimp only
  rw [skipWs_cons_not (by decide)]
  dsimp only
  rw [if_neg (by decide), if_neg (by decide), if_neg (by decide), if_neg (by decide),
    if_pos rfl]

theorem pv_false (f : Nat) (t : List Nat) :
    parseVal (f + 1) (0x66 :: 0x61 :: 0x6C :: 0x73 :: 0x65 :: t) = some (.bool false, t) := by
  rw [parseVal.eq_def]
  dsimp only
  rw [skipWs_cons_not (by decide)]
  dsimp only
  rw [if_neg (by decide), if_neg (by decide), if_neg (by decide), if_neg (by decide),
    if_neg (by decide), if_pos rfl]

theorem pv_str (f : Nat) (s t : List Nat) :
    parseVal (f + 1) (serStr s ++ t) = some (.str s, t) := by
  rw [show serStr s ++ t = 0x22 :: (escBody s ++ (0x22 :: t)) by simp [serStr]]
  rw [parseVal.eq_def]
  dsimp only
  rw [skipWs_cons_not (by decide)]
  dsimp only
  rw [if_pos rfl, parseStrBody_escBody]

theorem pv_num (f : Nat) {lx : List Nat} (hwf : scanNumber lx = some (lx, []))
    {t : List Nat} (ht : goodFollow t = true) :
    parseVal (f + 1) (lx ++ t) = some (.num lx, t) := by
  obtain ⟨d, u, hshape, hd⟩ := scanNumber_inv hwf
  have hfeed : scanNumber (lx ++ t) = some (lx, t) := scanNumber_feed hwf ht
  have hrange : d = 0x2D ∨ (0x30 ≤ d ∧ d ≤ 0x39) := by
    rcases hd with rfl | hdig
    · exact Or.inl rfl
    · exact Or.inr (isDigit_range hdig)
  rw [hshape]
  rw [parseVal.eq_def]
  dsimp only
  rw [List.cons_append, skipWs_cons_not (by
    apply isJsonWs_ascii <;> omega)]
  dsimp only
  rw [if_neg (by omega), if_neg (by omega), if_neg (by omega), if_neg (by omega),
    if_neg (by omega), if_neg (by omega)]
  rw [show d :: (u ++ t) = lx ++ t by rw [hshape]; simp]
  rw [hfeed]
  dsimp only
  rw [hshape]

theorem pv_arrNil (f : Nat) (t : List Nat) :
    parseVal (f + 1) (0x5B :: 0x5D :: t) = some (.arr [], t) := by
  rw [parseVal.eq_def]
  dsimp only
  rw [skipWs_cons_not (by decide)]
  dsimp only
  rw [if_neg (by decide), if_pos rfl, skipWs_cons_not (by decide)]
  dsimp only
  rw [if_pos rfl]

theorem pv_objNil (f : Nat) (t : List Nat) :
    parseVal (f + 1) (0x7B :: 0x7D :: t) = some (.obj [], t) := by
  rw [parseVal.eq_def]
  dsimp only
  rw [skipWs_cons_not (by decide)]
  dsimp only
  rw [if_neg (by decide), if_neg (by decide), if_pos rfl, skipWs_cons_not (by decide)]
  dsimp only
  rw [if_pos rfl]

theorem pv_arrDispatch (f : Nat) {l : List Nat} {d : Nat} {r1 : List Nat}
    (hskip : skipWs l = d :: r1) (hd : ¬d = 0x5D) :
    parseVal (f + 1) (0x5B :: l) =
      (match parseElems f (d :: r1) with
       | some (xs, r2) => some (.arr xs, r2)
       | none => none) := by
  rw [parseVal.eq_def]
  dsimp only
  rw [skipWs_cons_not (by decide)]
  dsimp only
  rw [if_neg (by decide), if_pos rfl, hskip]
  dsimp only
  rw [if_neg hd]

theorem pv_objDispatch (f : Nat) {l : List Nat} {d : Nat} {r1 : List Nat}
    (hskip : skipWs l = d :: r1) (hd : ¬d = 0x7D) :
    parseVal (f + 1) (0x7B :: l) =
      (match parseMembers f (d :: r1) with
       | some (ps, r2) => some (.obj (buildObj ps), r2)
       | none => none) := by
  rw [parseVal.eq_def]
  dsimp only
  rw [skipWs_cons_not (by decide)]
  dsimp only
  rw [if_neg (by decide), if_neg (by decide), if_pos rfl, hskip]
  dsimp only
  rw [if_neg hd]

theorem wfVal_null : wfVal .null = true := by rw [wfVal.eq_def]

theorem wfVal_bool (b : Bool) : wfVal (.bool b) = true := by rw [wfVal.eq_def]

theorem wfVal_num (lx : List Nat) : wfVal (.num lx) = (scanNumber lx == some (lx, [])) := by
  rw [wfVal.eq_def]

theorem wfVal_str (s : List Nat) : wfVal (.str s) = true := by rw [wfVal.eq_def]

theorem wfVal_arr (xs : List Jv) : wfVal (.arr xs) = wfSeq xs := by rw [wfVal.eq_def]

theorem wfVal_obj (ms : List (List Nat × Jv)) : wfVal (.obj ms) = wfMems ms := by
  rw [wfVal.eq_def]

theorem wfSeq_nil : wfSeq [] = true := by rw [wfSeq.eq_def]

theorem wfSeq_cons (x : Jv) (xs : List Jv) : wfSeq (x :: xs) = (wfVal x && wfSeq xs) := by
  rw [wfSeq.eq_def]

theorem wfMems_nil : wfMems [] = true := by rw [wfMems.eq_def]

theorem wfMems_cons (k : List Nat) (v : Jv) (ms : List (List Nat × Jv)) :
    wfMems ((k, v) :: ms) = (keyAbsent k ms && wfVal v && wfMems ms) := by
  rw [wfMems.eq_def]

theorem isJsonWs_cases {c : Nat} (h : isJsonWs c = true) :
    c = 0x20 ∨ c = 0x09 ∨ c = 0x0A ∨ c = 0x0D := by
  simp only [isJsonWs, Bool.or_eq_true, beq_iff_eq] at h
  tauto

theorem goodFollow_ws_close {w : List Nat} (hw : ∀ c ∈ w, isJsonWs c = true) {x : Nat}
    (hx : x = 0x5D ∨ x = 0x7D ∨ x = 0x2C ∨ x = 0x0A) (rest : List Nat) :
    goodFollow (w ++ x :: rest) = true := by
  cases w with
  | nil =>
    rcases hx with rfl | rfl | rfl | rfl <;> rfl
  | cons c w2 =>
    have hc := isJsonWs_cases (hw c (by simp))
    simp only [List.cons_append, goodFollow]
    rcases hc with rfl | rfl | rfl | rfl <;> rfl

theorem itemSep_shape (gap ind : List Nat) :
    itemSep gap ind = 0x2C :: (if gap.isEmpty then ([] : List Nat) else 0x0A :: ind) := by
  unfold itemSep
  split <;> rfl

theorem itemSep_len_pos (gap ind : List Nat) : 1 ≤ (itemSep gap ind).length := by
  rw [itemSep_shape]
  simp

theorem keyAbsent_mem : ∀ {k : List Nat} {ms : List (List Nat × Jv)},
    keyAbsent k ms = true → ∀ kv ∈ ms, ¬kv.1 = k := by
  intro k ms
  induction ms with
  | nil => intro _ kv hkv; cases hkv
  | cons m ms2 ih =>
    obtain ⟨k0, v0⟩ := m
    intro h kv hkv
    simp only [keyAbsent, Bool.and_eq_true, decide_eq_true_eq] at h
    rcases List.mem_cons.mp hkv with rfl | hkv2
    · exact h.1
    · exact ih h.2 kv hkv2

theorem keyAbsent_concat {k : List Nat} {ms : List (List Nat × Jv)} {k2 : List Nat} {v2 : Jv}
    (h1 : keyAbsent k ms = true) (h2 : ¬k2 = k) :
    keyAbsent k (ms ++ [(k2, v2)]) = true := by
  induction ms with
  | nil => simpa [keyAbsent]
  | cons m ms2 ih =>
    obtain ⟨k0, v0⟩ := m
    simp only [keyAbsent, Bool.and_eq_true, decide_eq_true_eq] at h1
    simp only [List.cons_append, keyAbsent, Bool.and_eq_true, decide_eq_true_eq]
    exact ⟨h1.1, ih h1.2⟩

theorem objInsert_fresh : ∀ {acc : List (List Nat × Jv)} {k : List Nat} (v : Jv),
    keyAbsent k acc = true → objInsert acc k v = acc ++ [(k, v)] := by
  intro acc
  induction acc with
  | nil => intro k v _; rfl
  | cons m ms2 ih =>
    obtain ⟨k0, v0⟩ := m
    intro k v h
    simp only [keyAbsent, Bool.and_eq_true, decide_eq_true_eq] at h
    simp only [objInsert]
    rw [if_neg h.1]
    rw [ih v h.2]
    simp

theorem buildObj_id_aux : ∀ (ms acc : List (List Nat × Jv)),
    (∀ kv ∈ ms, keyAbsent kv.1 acc = true) → wfMems ms = true →
    List.foldl (fun acc kv => objInsert acc kv.1 kv.2) acc ms = acc ++ ms := by
  intro ms
  induction ms with
  | nil => intro acc _ _; simp
  | cons m ms2 ih =>
    obtain ⟨k, v⟩ := m
    intro acc hfresh hwf
    rw [wfMems_cons] at hwf
    simp only [Bool.and_eq_true] at hwf
    obtain ⟨⟨habs, -⟩, hwfm⟩ := hwf
    simp only [List.foldl_cons]
    rw [objInsert_fresh v (hfresh (k, v) (by simp))]
    rw [ih (acc ++ [(k, v)]) ?_ hwfm]
    · simp
    · intro kv hkv
      have h1 : keyAbsent kv.1 acc = true := hfresh kv (by simp [hkv])
      have h2 : ¬kv.1 = k := by
        intro hcon
        exact keyAbsent_mem habs kv hkv hcon
      exact keyAbsent_concat h1 (by
        intro hcon
        exact h2 hcon.symm)

theorem buildObj_id {ms : List (List Nat × Jv)} (h : wfMems ms = true) : buildObj ms = ms := by
  have := buildObj_id_aux ms [] (by intro kv _; rfl) h
  simpa [buildObj] using this

theorem serStr_cons (s z : List Nat) :
    serStr s ++ z = 0x22 :: (escBody s ++ [0x22] ++ z) := by
  simp [serStr]

theorem serSeq_head (gap ind : List Nat) (x : Jv) (xs : List Jv) (hwx : wfVal x = true) :
    ∃ c t0, serSeq gap ind x xs = c :: t0 ∧ 0x21 ≤ c ∧ c ≤ 0x7B ∧ ¬c = 0x5D ∧ ¬c = 0x7D := by
  obtain ⟨c, t1, hser, h1, h2, h3, h4⟩ := serVal_head gap ind x hwx
  cases xs with
  | nil => exact ⟨c, t1, by rw [serSeq_single, hser], h1, h2, h3, h4⟩
  | cons y ys =>
    exact ⟨c, t1 ++ (itemSep gap ind ++ serSeq gap ind y ys),
      by rw [serSeq_cons, hser, List.cons_append], h1, h2, h3, h4⟩

theorem serMems_shape (gap ind : List Nat) (k : List Nat) (v : Jv)
    (ms : List (List Nat × Jv)) :
    ∃ z, serMems gap ind (k, v) ms = serStr k ++ ((0x3A :: ((if gap.isEmpty then [] else [0x20]) ++ serVal gap ind v)) ++ z) ∧
      (ms = [] → z = []) ∧
      (∀ m2 ms2, ms = m2 :: ms2 → z = itemSep gap ind ++ serMems gap ind m2 ms2) := by
  cases ms with
  | nil =>
    refine ⟨[], ?_, fun _ => rfl, fun m2 ms2 h => by cases h⟩
    rw [serMems_single, serMem_eq]
    simp
  | cons m2 ms2 =>
    refine ⟨itemSep gap ind ++ serMems gap ind m2 ms2, ?_, ?_, ?_⟩
    · rw [serMems_cons, serMem_eq]
      simp
    · intro h
      cases h
    · intro m3 ms3 h
      injection h with h1 h2
      subst h1; subst h2
      rfl

mutual

theorem rtVal : ∀ (v : Jv) (gap ind : List Nat) (fuel : Nat) (rest : List Nat),
    wfVal v = true → (∀ c ∈ gap, isJsonWs c = true) → (∀ c ∈ ind, isJsonWs c = true) →
    (serVal gap ind v).length < fuel → goodFollow rest = true →
    parseVal fuel (serVal gap ind v ++ rest) = some (v, rest)
  | .null, gap, ind, fuel, rest, hwf, hgap, hind, hfuel, hrest => by
    rw [serVal_null] at hfuel ⊢
    cases fuel with
    | zero => exact absurd hfuel (by omega)
    | succ f => exact pv_null f rest
  | .bool true, gap, ind, fuel, rest, hwf, hgap, hind, hfuel, hrest => by
    rw [serVal_true] at hfuel ⊢
    cases fuel with
    | zero => exact absurd hfuel (by omega)
    | succ f => exact pv_true f rest
  | .bool false, gap, ind, fuel, rest, hwf, hgap, hind, hfuel, hrest => by
    rw [serVal_false] at hfuel ⊢
    cases fuel with
    | zero => exact absurd hfuel (by omega)
    | succ f => exact pv_false f rest
  | .num lx, gap, ind, fuel, rest, hwf, hgap, hind, hfuel, hrest => by
    rw [serVal_num] at hfuel ⊢
    have hscan : scanNumber lx = some (lx, []) := by
      rw [wfVal_num] at hwf
      exact beq_iff_eq.mp hwf
    cases fuel with
    | zero => exact absurd hfuel (by omega)
    | succ f => exact pv_num f hscan hrest
  | .str s, gap, ind, fuel, rest, hwf, hgap, hind, hfuel, hrest => by
    rw [serVal_str] at hfuel ⊢
    cases fuel with
    | zero =>
      rw [serStr] at hfuel
      exact absurd hfuel (by omega)
    | succ f => exact pv_str f s rest
  | .arr [], gap, ind, fuel, rest, hwf, hgap, hind, hfuel, hrest => by
    rw [serVal_arrNil] at hfuel ⊢
    cases fuel with
    | zero => exact absurd hfuel (by omega)
    | succ f => exact pv_arrNil f rest
  | .arr (x :: xs), gap, ind, fuel, rest, hwf, hgap, hind, hfuel, hrest => by
    rw [wfVal_arr] at hwf
    have hwx : wfVal x = true := by
      rw [wfSeq_cons, Bool.and_eq_true] at hwf
      exact hwf.1
    cases fuel with
    | zero => exact absurd hfuel (by omega)
    | succ f =>
      rw [serVal_arrCons] at hfuel ⊢
      by_cases hg : gap.isEmpty
      · rw [if_pos hg] at hfuel ⊢
        obtain ⟨c, t0, hser, hc1, hc2, hc3, hc4⟩ := serSeq_head gap ind x xs hwx
        have hskip : skipWs (serSeq gap ind x xs ++ ([] ++ 0x5D :: rest))
            = c :: (t0 ++ ([] ++ 0x5D :: rest)) := by
          rw [hser, List.cons_append]
          exact skipWs_cons_not (isJsonWs_ascii hc1 (by omega)) _
        have hlen : (serSeq gap ind x xs).length + 1 < f := by
          simp only [List.length_cons, List.length_append] at hfuel
          omega
        have hseq := rtSeq x xs gap ind f [] rest hwf hgap hind (by simp) hlen
        rw [show (0x5B :: (serSeq gap ind x xs ++ [0x5D])) ++ rest
            = 0x5B :: (serSeq gap ind x xs ++ ([] ++ 0x5D :: rest)) by simp]
        rw [pv_arrDispatch f hskip hc3]
        rw [show c :: (t0 ++ ([] ++ 0x5D :: rest))
            = serSeq gap ind x xs ++ ([] ++ 0x5D :: rest) by rw [hser]; simp]
        rw [hseq]
      · rw [if_neg hg] at hfuel ⊢
        have hindgap : ∀ c ∈ ind ++ gap, isJsonWs c = true := by
          intro c hc
          rcases List.mem_append.mp hc with h | h
          exacts [hind c h, hgap c h]
        have hwpre : ∀ c ∈ (0x0A : Nat) :: (ind ++ gap), isJsonWs c = true := by
          intro c hc
          rcases List.mem_cons.mp hc with rfl | h
          · rfl
          · exact hindgap c h
        have hwclose : ∀ c ∈ (0x0A : Nat) :: ind, isJsonWs c = true := by
          intro c hc
          rcases List.mem_cons.mp hc with rfl | h
          · rfl
          · exact hind c h
        obtain ⟨c, t0, hser, hc1, hc2, hc3, hc4⟩ := serSeq_head gap (ind ++ gap) x xs hwx
        have hskip : skipWs ((0x0A :: (ind ++ gap)) ++
            (serSeq gap (ind ++ gap) x xs ++ ((0x0A :: ind) ++ 0x5D :: rest)))
            = c :: (t0 ++ ((0x0A :: ind) ++ 0x5D :: rest)) := by
          rw [skipWs_wsLead _ hwpre, hser, List.cons_append]
          exact skipWs_cons_not (isJsonWs_ascii hc1 (by omega)) _
        have hlen : (serSeq gap (ind ++ gap) x xs).length + 1 < f := by
          simp only [List.length_cons, List.length_append] at hfuel
          omega
        have hseq := rtSeq x xs gap (ind ++ gap) f (0x0A :: ind) rest hwf hgap hindgap
          hwclose hlen
        rw [show (0x5B :: 0x0A :: ((ind ++ gap) ++
              (serSeq gap (ind ++ gap) x xs ++ (0x0A :: (ind ++ [0x5D]))))) ++ rest
            = 0x5B :: ((0x0A :: (ind ++ gap)) ++
              (serSeq gap (ind ++ gap) x xs ++ ((0x0A :: ind) ++ 0x5D :: rest))) by simp]
        rw [pv_arrDispatch f hskip hc3]
        rw [show c :: (t0 ++ ((0x0A :: ind) ++ 0x5D :: rest))
            = serSeq gap (ind ++ gap) x xs ++ ((0x0A :: ind) ++ 0x5D :: rest) by
          rw [hser]; simp]
        rw [hseq]
  | .obj [], gap, ind, fuel, rest, hwf, hgap, hind, hfuel, hrest => by
    rw [serVal_objNil] at hfuel ⊢
    cases fuel with
    | zero => exact absurd hfuel (by omega)
    | succ f => exact pv_objNil f rest
  | .obj (m :: ms), gap, ind, fuel, rest, hwf, hgap, hind, hfuel, hrest => by
    rw [wfVal_obj] at hwf
    cases fuel with
    | zero => exact absurd hfuel (by omega)
    | succ f =>
      rw [serVal_objCons] at hfuel ⊢
      have hbuild : buildObj (m :: ms) = m :: ms := buildObj_id hwf
      by_cases hg : gap.isEmpty
      · rw [if_pos hg] at hfuel ⊢
        have hser0 := serMems_shape gap ind m.1 m.2 ms
        obtain ⟨z, hser, -, -⟩ := hser0
        have hcons : serMems gap ind m ms
            = 0x22 :: (escBody m.1 ++ [0x22] ++
              ((0x3A :: ((if gap.isEmpty then [] else [0x20]) ++ serVal gap ind m.2)) ++ z)) := by
          rw [show serMems gap ind m ms = serMems gap ind (m.1, m.2) ms from rfl]
          rw [hser, serStr_cons]
        have hskip : skipWs (serMems gap ind m ms ++ ([] ++ 0x7D :: rest))
            = 0x22 :: (escBody m.1 ++ [0x22] ++
              ((0x3A :: ((if gap.isEmpty then [] else [0x20]) ++ serVal gap ind m.2)) ++ z)
              ++ ([] ++ 0x7D :: rest)) := by
          rw [hcons, List.cons_append]
          exact skipWs_cons_not (by decide) _
        have hlen : (serMems gap ind m ms).length + 1 < f := by
          simp only [List.length_cons, List.length_append] at hfuel
          omega
        have hmems := rtMems m ms gap ind f [] rest hwf hgap hind (by simp) hlen
        rw [show (0x7B :: (serMems gap ind m ms ++ [0x7D])) ++ rest
            = 0x7B :: (serMems gap ind m ms ++ ([] ++ 0x7D :: rest)) by simp]
        rw [pv_objDispatch f hskip (by decide)]
        rw [show (0x22 : Nat) :: (escBody m.1 ++ [0x22] ++
              ((0x3A :: ((if gap.isEmpty then [] else [0x20]) ++ serVal gap ind m.2)) ++ z)
              ++ ([] ++ 0x7D :: rest))
            = serMems gap ind m ms ++ ([] ++ 0x7D :: rest) by rw [hcons]; simp]
        rw [hmems]
        dsimp only
        rw [hbuild]
      · rw [if_neg hg] at hfuel ⊢
        have hindgap : ∀ c ∈ ind ++ gap, isJsonWs c = true := by
          intro c hc
          rcases List.mem_append.mp hc with h | h
          exacts [hind c h, hgap c h]
        have hwpre : ∀ c ∈ (0x0A : Nat) :: (ind ++ gap), isJsonWs c = true := by
          intro c hc
          rcases List.mem_cons.mp hc with rfl | h
          · rfl
          · exact hindgap c h
        have hwclose : ∀ c ∈ (0x0A : Nat) :: ind, isJsonWs c = true := by
          intro c hc
          rcases List.mem_cons.mp hc with rfl | h
          · rfl
          · exact hind c h
        have hser0 := serMems_shape gap (ind ++ gap) m.1 m.2 ms
        obtain ⟨z, hser, -, -⟩ := hser0
        have hcons : serMems gap (ind ++ gap) m ms
            = 0x22 :: (escBody m.1 ++ [0x22] ++
              ((0x3A :: ((if gap.isEmpty then [] else [0x20]) ++ serVal gap (ind ++ gap) m.2))
                ++ z)) := by
          rw [show serMems gap (ind ++ gap) m ms
            = serMems gap (ind ++ gap) (m.1, m.2) ms from rfl]
          rw [hser, serStr_cons]
        have hskip : skipWs ((0x0A :: (ind ++ gap)) ++
            (serMems gap (ind ++ gap) m ms ++ ((0x0A :: ind) ++ 0x7D :: rest)))
            = 0x22 :: (escBody m.1 ++ [0x22] ++
              ((0x3A :: ((if gap.isEmpty then [] else [0x20]) ++ serVal gap (ind ++ gap) m.2))
                ++ z) ++ ((0x0A :: ind) ++ 0x7D :: rest)) := by
          rw [skipWs_wsLead _ hwpre, hcons, List.cons_append]
          exact skipWs_cons_not (by decide) _
        have hlen : (serMems gap (ind ++ gap) m ms).length + 1 < f := by
          simp only [List.length_cons, List.length_append] at hfuel
          omega
        have hmems := rtMems m ms gap (ind ++ gap) f (0x0A :: ind) rest hwf hgap
          hindgap hwclose hlen
        rw [show (0x7B :: 0x0A :: ((ind ++ gap) ++
              (serMems gap (ind ++ gap) m ms ++ (0x0A :: (ind ++ [0x7D]))))) ++ rest
            = 0x7B :: ((0x0A :: (ind ++ gap)) ++
              (serMems gap (ind ++ gap) m ms ++ ((0x0A :: ind) ++ 0x7D :: rest))) by
          simp]
        rw [pv_objDispatch f hskip (by decide)]
        rw [show (0x22 : Nat) :: (escBody m.1 ++ [0x22] ++
              ((0x3A :: ((if gap.isEmpty then [] else [0x20]) ++ serVal gap (ind ++ gap) m.2))
                ++ z) ++ ((0x0A :: ind) ++ 0x7D :: rest))
            = serMems gap (ind ++ gap) m ms ++ ((0x0A :: ind) ++ 0x7D :: rest) by
          rw [hcons]; simp]
        rw [hmems]
        dsimp only
        rw [hbuild]
termination_by v _ _ _ _ => sizeOf v

theorem rtSeq : ∀ (x : Jv) (xs : List Jv) (gap ind : List Nat) (fuel : Nat) (w rest : List Nat),
    wfSeq (x :: xs) = true → (∀ c ∈ gap, isJsonWs c = true) → (∀ c ∈ ind, isJsonWs c = true) →
    (∀ c ∈ w, isJsonWs c = true) → (serSeq gap ind x xs).length + 1 < fuel →
    parseElems fuel (serSeq gap ind x xs ++ (w ++ 0x5D :: rest)) = some (x :: xs, rest)
  | x, [], gap, ind, fuel, w, rest, hwf, hgap, hind, hw, hfuel => by
    have hwx : wfVal x = true := by
      rw [wfSeq_cons, Bool.and_eq_true] at hwf
      exact hwf.1
    cases fuel with
    | zero => exact absurd hfuel (by omega)
    | succ f =>
      rw [serSeq_single] at hfuel ⊢
      have hval := rtVal x gap ind f (w ++ 0x5D :: rest) hwx hgap hind (by omega)
        (goodFollow_ws_close hw (by omega) rest)
      rw [parseElems.eq_def]
      dsimp only
      rw [hval]
      dsimp only
      rw [skipWs_wsLead w hw, skipWs_cons_not (by decide)]
  | x, y :: ys, gap, ind, fuel, w, rest, hwf, hgap, hind, hw, hfuel => by
    rw [wfSeq_cons, Bool.and_eq_true] at hwf
    obtain ⟨hwx, hwtail⟩ := hwf
    cases fuel with
    | zero => exact absurd hfuel (by omega)
    | succ f =>
      rw [serSeq_cons] at hfuel ⊢
      have hsep1 : 1 ≤ (itemSep gap ind).length := itemSep_len_pos gap ind
      have hvx1 : 1 ≤ (serVal gap ind x).length := serVal_len_pos gap ind x hwx
      have hfx : (serVal gap ind x).length < f := by
        simp only [List.length_append] at hfuel
        omega
      have hftail : (serSeq gap ind y ys).length + 1 < f := by
        simp only [List.length_append] at hfuel
        omega
      have hgf : goodFollow (itemSep gap ind ++
          (serSeq gap ind y ys ++ (w ++ 0x5D :: rest))) = true := by
        rw [itemSep_shape, List.cons_append]
        rfl
      have hval := rtVal x gap ind f
        (itemSep gap ind ++ (serSeq gap ind y ys ++ (w ++ 0x5D :: rest)))
        hwx hgap hind hfx hgf
      rw [parseElems.eq_def]
      dsimp only
      rw [show (serVal gap ind x ++ (itemSep gap ind ++ serSeq gap ind y ys))
            ++ (w ++ 0x5D :: rest)
          = serVal gap ind x ++
            (itemSep gap ind ++ (serSeq gap ind y ys ++ (w ++ 0x5D :: rest))) by simp]
      rw [hval]
      dsimp only
      rw [itemSep_shape, List.cons_append, skipWs_cons_not (by decide)]
      dsimp only
      by_cases hg : gap.isEmpty
      · rw [if_pos hg]
        have htail := rtSeq y ys gap ind f w rest hwtail hgap hind hw hftail
        rw [List.nil_append, htail]
      · rw [if_neg hg]
        have hwpre : ∀ c ∈ (0x0A : Nat) :: ind, isJsonWs c = true := by
          intro c hc
          rcases List.mem_cons.mp hc with rfl | h
          · rfl
          · exact hind c h
        have htail := rtSeq y ys gap ind f w rest hwtail hgap hind hw hftail
        rw [List.cons_append, show (0x0A : Nat) :: (ind ++
              (serSeq gap ind y ys ++ (w ++ 0x5D :: rest)))
            = ((0x0A : Nat) :: ind) ++ (serSeq gap ind y ys ++ (w ++ 0x5D :: rest)) by simp]
        rw [parseElems_wsLead f _ _ hwpre, htail]
termination_by x xs _ _ _ _ _ => 1 + sizeOf x + sizeOf xs

theorem rtMems : ∀ (m : List Nat × Jv) (ms : List (List Nat × Jv)) (gap ind : List Nat)
    (fuel : Nat) (w rest : List Nat),
    wfMems (m :: ms) = true → (∀ c ∈ gap, isJsonWs c = true) →
    (∀ c ∈ ind, isJsonWs c = true) → (∀ c ∈ w, isJsonWs c = true) →
    (serMems gap ind m ms).length + 1 < fuel →
    parseMembers fuel (serMems gap ind m ms ++ (w ++ 0x7D :: rest)) = some (m :: ms, rest)
  | (k, v), [], gap, ind, fuel, w, rest, hwf, hgap, hind, hw, hfuel => by
    rw [wfMems_cons, Bool.and_eq_true, Bool.and_eq_true] at hwf
    obtain ⟨⟨-, hwv⟩, -⟩ := hwf
    cases fuel with
    | zero => exact absurd hfuel (by omega)
    | succ f =>
      rw [serMems_single, serMem_eq] at hfuel ⊢
      have hfv : (serVal gap ind v).length < f := by
        simp only [List.length_append, List.length_cons, serStr] at hfuel
        omega
      have hspws : ∀ c ∈ (if gap.isEmpty then ([] : List Nat) else [0x20]),
          isJsonWs c = true := by
        intro c hc
        split at hc
        · cases hc
        · rcases List.mem_singleton.mp hc with rfl
          rfl
      have hval := rtVal v gap ind f (w ++ 0x7D :: rest) hwv hgap hind hfv
        (goodFollow_ws_close hw (by omega) rest)
      rw [parseMembers.eq_def]
      dsimp only
      rw [show (serStr k ++
            (0x3A :: ((if gap.isEmpty then [] else [0x20]) ++ serVal gap ind v)))
            ++ (w ++ 0x7D :: rest)
          = 0x22 :: (escBody k ++ [0x22] ++
            (0x3A :: ((if gap.isEmpty then [] else [0x20]) ++
              (serVal gap ind v ++ (w ++ 0x7D :: rest))))) by
        rw [serStr]; simp]
      rw [skipWs_cons_not (by decide)]
      dsimp only
      rw [parseStrBody_serStr]
      dsimp only
      rw [skipWs_cons_not (by decide)]
      dsimp only
      rw [parseVal_wsLead f _ _ hspws, hval]
      dsimp only
      rw [skipWs_wsLead w hw, skipWs_cons_not (by decide)]
  | (k, v), m2 :: ms2, gap, ind, fuel, w, rest, hwf, hgap, hind, hw, hfuel => by
    rw [wfMems_cons, Bool.and_eq_true, Bool.and_eq_true] at hwf
    obtain ⟨⟨-, hwv⟩, hwtail⟩ := hwf
    cases fuel with
    | zero => exact absurd hfuel (by omega)
    | succ f =>
      rw [serMems_cons, serMem_eq] at hfuel ⊢
      have hsep1 : 1 ≤ (itemSep gap ind).length := itemSep_len_pos gap ind
      have hfv : (serVal gap ind v).length < f := by
        simp only [List.length_append, List.length_cons, serStr] at hfuel
        omega
      have hftail : (serMems gap ind m2 ms2).length + 1 < f := by
        simp only [List.length_append, List.length_cons, serStr] at hfuel
        omega
      have hspws : ∀ c ∈ (if gap.isEmpty then ([] : List Nat) else [0x20]),
          isJsonWs c = true := by
        intro c hc
        split at hc
        · cases hc
        · rcases List.mem_singleton.mp hc with rfl
          rfl
      have hgf : goodFollow (itemSep gap ind ++
          (serMems gap ind m2 ms2 ++ (w ++ 0x7D :: rest))) = true := by
        rw [itemSep_shape, List.cons_append]
        rfl
      have hval := rtVal v gap ind f
        (itemSep gap ind ++ (serMems gap ind m2 ms2 ++ (w ++ 0x7D :: rest)))
        hwv hgap hind hfv hgf
      rw [parseMembers.eq_def]
      dsimp only
      rw [show (serStr k ++
            (0x3A :: ((if gap.isEmpty then [] else [0x20]) ++ serVal gap ind v))
            ++ (itemSep gap ind ++ serMems gap ind m2 ms2)) ++ (w ++ 0x7D :: rest)
          = 0x22 :: (escBody k ++ [0x22] ++
            (0x3A :: ((if gap.isEmpty then [] else [0x20]) ++
              (serVal gap ind v ++
                (itemSep gap ind ++ (serMems gap ind m2 ms2 ++ (w ++ 0x7D :: rest))))))) by
        rw [serStr]; simp]
      rw [skipWs_cons_not (by decide)]
      dsimp only
      rw [parseStrBody_serStr]
      dsimp only
      rw [skipWs_cons_not (by decide)]
      dsimp only
      rw [parseVal_wsLead f _ _ hspws, hval]
      dsimp only
      rw [itemSep_shape, List.cons_append, skipWs_cons_not (by decide)]
      dsimp only
      by_cases hg : gap.isEmpty
      · rw [if_pos hg]
        have htail := rtMems m2 ms2 gap ind f w rest hwtail hgap hind hw hftail
        rw [List.nil_append, htail]
      · rw [if_neg hg]
        have hwpre : ∀ c ∈ (0x0A : Nat) :: ind, isJsonWs c = true := by
          intro c hc
          rcases List.mem_cons.mp hc with rfl | h
          · rfl
          · exact hind c h
        have htail := rtMems m2 ms2 gap ind f w rest hwtail hgap hind hw hftail
        rw [List.cons_append, show (0x0A : Nat) :: (ind ++
              (serMems gap ind m2 ms2 ++ (w ++ 0x7D :: rest)))
            = ((0x0A : Nat) :: ind) ++ (serMems gap ind m2 ms2 ++ (w ++ 0x7D :: rest)) by
          simp]
        rw [parseMembers_wsLead f _ _ hwpre, htail]
termination_by m ms _ _ _ _ _ => 1 + sizeOf m + sizeOf ms

end

theorem jsonParse_serVal {gap : List Nat} (hgap : ∀ c ∈ gap, isJsonWs c = true) (v : Jv)
    (hwf : wfVal v = true) : jsonParse (serVal gap [] v) = .ok v := by
  unfold jsonParse
  have h := rtVal v gap [] ((serVal gap [] v).length + 2) [] hwf hgap (by simp) (by omega) rfl
  rw [List.append_nil] at h
  rw [h]
  rfl

theorem keyAbsent_objInsert : ∀ {ms : List (List Nat × Jv)} {x k : List Nat} {v : Jv},
    keyAbsent x ms = true → ¬k = x → keyAbsent x (objInsert ms k v) = true := by
  intro ms
  induction ms with
  | nil =>
    intro x k v _ h2
    simp [objInsert, keyAbsent, h2]
  | cons m ms2 ih =>
    obtain ⟨k0, v0⟩ := m
    intro x k v h1 h2
    simp only [keyAbsent, Bool.and_eq_true, decide_eq_true_eq] at h1
    simp only [objInsert]
    by_cases hk : k0 = k
    · rw [if_pos hk]
      simp [keyAbsent, h1.1, h1.2]
    · rw [if_neg hk]
      simp only [keyAbsent, Bool.and_eq_true, decide_eq_true_eq]
      exact ⟨h1.1, ih h1.2 h2⟩

theorem objInsert_wf : ∀ {ms : List (List Nat × Jv)} {k : List Nat} {v : Jv},
    wfMems ms = true → wfVal v = true → wfMems (objInsert ms k v) = true := by
  intro ms
  induction ms with
  | nil =>
    intro k v _ hv
    simp only [objInsert]
    rw [wfMems_cons]
    simp only [keyAbsent, hv, Bool.and_true, Bool.true_and]
    exact wfMems_nil
  | cons m ms2 ih =>
    obtain ⟨k0, v0⟩ := m
    intro k v hm hv
    rw [wfMems_cons, Bool.and_eq_true, Bool.and_eq_true] at hm
    obtain ⟨⟨habs, hv0⟩, hms2⟩ := hm
    simp only [objInsert]
    by_cases hk : k0 = k
    · rw [if_pos hk, wfMems_cons]
      simp [habs, hv, hms2]
    · rw [if_neg hk, wfMems_cons]
      simp only [Bool.and_eq_true]
      exact ⟨⟨keyAbsent_objInsert habs (fun hcon => hk hcon.symm), hv0⟩, ih hms2 hv⟩

theorem buildObj_wf_aux : ∀ (ps acc : List (List Nat × Jv)),
    wfMems acc = true → (∀ kv ∈ ps, wfVal kv.2 = true) →
    wfMems (List.foldl (fun acc kv => objInsert acc kv.1 kv.2) acc ps) = true := by
  intro ps
  induction ps with
  | nil => intro acc hacc _; simpa using hacc
  | cons p ps2 ih =>
    intro acc hacc hall
    simp only [List.foldl_cons]
    exact ih (objInsert acc p.1 p.2) (objInsert_wf hacc (hall p (by simp)))
      (fun kv hkv => hall kv (by simp [hkv]))

theorem buildObj_wf {ps : List (List Nat × Jv)} (h : ∀ kv ∈ ps, wfVal kv.2 = true) :
    wfMems (buildObj ps) = true := by
  exact buildObj_wf_aux ps [] wfMems_nil h

theorem wfSeq_of_forall : ∀ {xs : List Jv}, (∀ x ∈ xs, wfVal x = true) → wfSeq xs = true := by
  intro xs
  induction xs with
  | nil => intro _; exact wfSeq_nil
  | cons x xs2 ih =>
    intro h
    rw [wfSeq_cons, Bool.and_eq_true]
    exact ⟨h x (by simp), ih (fun y hy => h y (by simp [hy]))⟩

mutual

theorem parseVal_wf : ∀ (f : Nat) (l : List Nat) (v : Jv) (r : List Nat),
    parseVal f l = some (v, r) → wfVal v = true
  | 0, l, v, r, h => by
    rw [parseVal.eq_def] at h
    exact absurd h (by simp)
  | f + 1, l, v, r, h => by
    rw [parseVal.eq_def] at h
    dsimp only at h
    repeat' split at h
    all_goals try contradiction
    all_goals
      injection h with h1
    all_goals
      injection h1 with ha hb
    all_goals subst ha
    all_goals first
      | exact wfVal_str _
      | exact wfVal_null
      | exact wfVal_bool _
      | (rw [wfVal_arr]; exact wfSeq_nil)
      | (rw [wfVal_obj]; exact wfMems_nil)
      | (rw [wfVal_arr]; exact wfSeq_of_forall (parseElems_wf _ _ _ _ (by assumption)))
      | (rw [wfVal_obj]; exact buildObj_wf (parseMembers_wf _ _ _ _ (by assumption)))
      | (rw [wfVal_num]; exact beq_iff_eq.mpr (scanNumber_wfNum (by assumption)))

theorem parseElems_wf : ∀ (f : Nat) (l : List Nat) (xs : List Jv) (r : List Nat),
    parseElems f l = some (xs, r) → ∀ x ∈ xs, wfVal x = true
  | 0, l, xs, r, h => by
    rw [parseElems.eq_def] at h
    exact absurd h (by simp)
  | f + 1, l, xs, r, h => by
    rw [parseElems.eq_def] at h
    dsimp only at h
    repeat' split at h
    all_goals try contradiction
    all_goals
      injection h with h1
    all_goals
      injection h1 with ha hb
    all_goals subst ha
    · intro x hx
      rcases List.mem_cons.mp hx with rfl | hx2
      · exact parseVal_wf _ _ _ _ (by assumption)
      · exact parseElems_wf _ _ _ _ (by assumption) x hx2
    · intro x hx
      rcases List.mem_cons.mp hx with rfl | hx2
      · exact parseVal_wf _ _ _ _ (by assumption)
      · cases hx2

theorem parseMembers_wf : ∀ (f : Nat) (l : List Nat) (ps : List (List Nat × Jv)) (r : List Nat),
    parseMembers f l = some (ps, r) → ∀ kv ∈ ps, wfVal kv.2 = true
  | 0, l, ps, r, h => by
    rw [parseMembers.eq_def] at h
    exact absurd h (by simp)
  | f + 1, l, ps, r, h => by
    rw [parseMembers.eq_def] at h
    dsimp only at h
    repeat' split at h
    all_goals try contradiction
    all_goals
      injection h with h1
    all_goals
      injection h1 with ha hb
    all_goals subst ha
    · intro kv hkv
      rcases List.mem_cons.mp hkv with rfl | hkv2
      · exact parseVal_wf _ _ _ _ (by assumption)
      · exact parseMembers_wf _ _ _ _ (by assumption) kv hkv2
    · intro kv hkv
      rcases List.mem_cons.mp hkv with rfl | hkv2
      · exact parseVal_wf _ _ _ _ (by assumption)
      · cases hkv2

end

theorem jsonParse_wf {l : List Nat} {v : Jv} (h : jsonParse l = .ok v) : wfVal v = true := by
  unfold jsonParse at h
  split at h
  · rename_i v0 r heq
    split at h
    · injection h with h1
      subst h1
      exact parseVal_wf _ _ _ _ heq
    · cases h
  · cases h

theorem jsonParse_nil : jsonParse ([] : List Nat) = .error "Unexpected token in JSON input" := by
  unfold jsonParse
  rw [parseVal.eq_def]
  dsimp only
  rw [show skipWs ([] : List Nat) = [] from rfl]

theorem parse_head_obj {l : List Nat} {v : Jv} (h : jsonParse l = .ok v)
    (hh : l.head? = some 0x7B) : ∃ ms, v = .obj ms := by
  cases l with
  | nil => cases hh
  | cons c t =>
    injection hh with hc
    subst hc
    unfold jsonParse at h
    split at h
    · rename_i v0 r heq
      split at h
      · injection h with h1
        subst h1
        rw [parseVal.eq_def] at heq
        dsimp only at heq
        rw [skipWs_cons_not (by decide)] at heq
        dsimp only at heq
        rw [if_neg (by decide), if_neg (by decide), if_pos rfl] at heq
        split at heq
        · cases heq
        · rename_i d r1 hskip
          split at heq
          · injection heq with h2
            injection h2 with ha hb
            exact ⟨[], ha.symm⟩
          · split at heq
            · rename_i ps r2 hmem
              injection heq with h2
              injection h2 with ha hb
              exact ⟨buildObj ps, ha.symm⟩
            · cases heq
      · cases h
    · cases h

theorem parse_head_arr {l : List Nat} {v : Jv} (h : jsonParse l = .ok v)
    (hh : l.head? = some 0x5B) : ∃ xs, v = .arr xs := by
  cases l with
  | nil => cases hh
  | cons c t =>
    injection hh with hc
    subst hc
    unfold jsonParse at h
    split at h
    · rename_i v0 r heq
      split at h
      · injection h with h1
        subst h1
        rw [parseVal.eq_def] at heq
        dsimp only at heq
        rw [skipWs_cons_not (by decide)] at heq
        dsimp only at heq
        rw [if_neg (by decide), if_pos rfl] at heq
        split at heq
        · cases heq
        · rename_i d r1 hskip
          split at heq
          · injection heq with h2
            injection h2 with ha hb
            exact ⟨[], ha.symm⟩
          · split at heq
            · rename_i xs r2 helems
              injection heq with h2
              injection h2 with ha hb
              exact ⟨xs, ha.symm⟩
            · cases heq
      · cases h
    · cases h

theorem looksJson_head {t : List Nat} (h : looksJson t = true) :
    t.head? = some 0x7B ∨ t.head? = some 0x5B := by
  simp only [looksJson, Bool.or_eq_true, Bool.and_eq_true, beq_iff_eq] at h
  rcases h with ⟨h1, -⟩ | ⟨h1, -⟩
  · exact Or.inl h1
  · exact Or.inr h1

theorem recover_str_eq (s : List Nat) :
    recover (.str s) =
      (if looksJson (jsTrim s) then
        match jsonParse (jsTrim s) with
        | .ok inner => inner
        | .error _ => .str s
      else .str s) := rfl

theorem recover_obj (ms : List (List Nat × Jv)) : recover (.obj ms) = .obj ms := rfl

theorem recover_arr (xs : List Jv) : recover (.arr xs) = .arr xs := rfl

theorem recover_recover (v : Jv) : recover (recover v) = recover v := by
  cases v with
  | str s =>
    rw [recover_str_eq]
    by_cases hl : looksJson (jsTrim s)
    · rw [if_pos hl]
      rcases hp : jsonParse (jsTrim s) with m | u
      · rw [recover_str_eq, if_pos hl, hp]
      · rcases looksJson_head hl with hh | hh
        · obtain ⟨ms, rfl⟩ := parse_head_obj hp hh
          exact recover_obj ms
        · obtain ⟨xs, rfl⟩ := parse_head_arr hp hh
          exact recover_arr xs
    · rw [if_neg hl, recover_str_eq, if_neg hl]
  | null => rfl
  | bool b => rfl
  | num lx => rfl
  | arr xs => rfl
  | obj ms => rfl

theorem recover_wf {v : Jv} (h : wfVal v = true) : wfVal (recover v) = true := by
  cases v with
  | str s =>
    rw [recover_str_eq]
    by_cases hl : looksJson (jsTrim s)
    · rw [if_pos hl]
      rcases hp : jsonParse (jsTrim s) with m | u
      · exact wfVal_str s
      · exact jsonParse_wf hp
    · rw [if_neg hl]
      exact wfVal_str s
  | null => exact h
  | bool b => exact h
  | num lx => exact h
  | arr xs => exact h
  | obj ms => exact h

theorem parseJson_of_parse {s : List Nat} {v : Jv} (h : jsonParse (jsTrim s) = .ok v) :
    parseJson s = .ok (recover v) := by
  have hne : ¬jsTrim s = [] := by
    intro hcon
    rw [hcon, jsonParse_nil] at h
    cases h
  unfold parseJson
  rw [if_neg hne, h]

theorem parseJson_of_error {s : List Nat} {m : String} (h : jsonParse (jsTrim s) = .error m)
    (hne : ¬jsTrim s = []) :
    parseJson s = .error ⟨.syntaxError, "Invalid JSON: " ++ m⟩ := by
  unfold parseJson
  rw [if_neg hne, h]

theorem parseJson_empty {s : List Nat} (h : jsTrim s = []) : parseJson s = .ok .null := by
  unfold parseJson
  rw [if_pos h]

theorem dropWhile_head_stop {p : Nat → Bool} {l : List Nat}
    (h : ∀ c, l.head? = some c → p c = false) : l.dropWhile p = l := by
  cases l with
  | nil => rfl
  | cons c t => exact List.dropWhile_cons_of_neg (by simp [h c rfl])

theorem jsTrim_eq_self {l : List Nat}
    (hh : ∀ c, l.head? = some c → isJsWs c = false)
    (hl : ∀ c, l.getLast? = some c → isJsWs c = false) : jsTrim l = l := by
  unfold jsTrim
  rw [dropWhile_head_stop hh]
  rw [dropWhile_head_stop (by
    intro c hc
    rw [List.head?_reverse] at hc
    exact hl c hc)]
  exact List.reverse_reverse l

theorem jsTrim_serVal {gap : List Nat} (v : Jv) (hwf : wfVal v = true) :
    jsTrim (serVal gap [] v) = serVal gap [] v := by
  apply jsTrim_eq_self
  · intro c hc
    obtain ⟨c0, t0, heq, h1, h2, -, -⟩ := serVal_head gap [] v hwf
    rw [heq] at hc
    injection hc with hc2
    subst hc2
    exact isJsWs_ascii h1 (by omega)
  · intro c hc
    obtain ⟨c0, hlast, h1, h2⟩ := serVal_last gap [] v hwf
    rw [hlast] at hc
    injection hc with hc2
    subst hc2
    exact isJsWs_ascii h1 (by omega)

theorem parseJson_serVal {gap : List Nat} (hgap : ∀ c ∈ gap, isJsonWs c = true) (v : Jv)
    (hwf : wfVal v = true) : parseJson (serVal gap [] v) = .ok (recover v) := by
  apply parseJson_of_parse
  rw [jsTrim_serVal v hwf]
  exact jsonParse_serVal hgap v hwf

mutual

/-- Count JS whitespace units outside string literals, scanning from the
outside-string state. -/
def wsOut : List Nat → Nat
  | [] => 0
  | c :: r => if c = 0x22 then wsIn r else (if isJsWs c then 1 else 0) + wsOut r
termination_by l => l.length
decreasing_by all_goals simp_arith

/-- The inside-string state of the scanner: escapes skip a unit, a closing
quote returns outside. -/
def wsIn : List Nat → Nat
  | [] => 0
  | c :: r =>
    if c = 0x22 then wsOut r
    else if c = 0x5C then
      match r with
      | [] => 0
      | _ :: r2 => wsIn r2
    else wsIn r
termination_by l => l.length
decreasing_by all_goals simp_arith

end

theorem wsOut_nil : wsOut [] = 0 := by rw [wsOut.eq_def]

theorem wsOut_quote (r : List Nat) : wsOut (0x22 :: r) = wsIn r := by
  rw [wsOut.eq_def]
  dsimp only
  rw [if_pos rfl]

theorem wsOut_raw {c : Nat} (h1 : ¬c = 0x22) (h2 : isJsWs c = false) (r : List Nat) :
    wsOut (c :: r) = wsOut r := by
  rw [wsOut.eq_def]
  dsimp only
  rw [if_neg h1, h2]
  simp

theorem wsIn_quote (r : List Nat) : wsIn (0x22 :: r) = wsOut r := by
  rw [wsIn.eq_def]
  dsimp only
  rw [if_pos rfl]

theorem wsIn_esc (e : Nat) (r : List Nat) : wsIn (0x5C :: e :: r) = wsIn r := by
  rw [wsIn.eq_def]
  dsimp only
  rw [if_neg (by decide), if_pos rfl]

theorem wsIn_raw {c : Nat} (h1 : ¬c = 0x22) (h2 : ¬c = 0x5C) (r : List Nat) :
    wsIn (c :: r) = wsIn r := by
  rw [wsIn.eq_def]
  dsimp only
  rw [if_neg h1, if_neg h2]

theorem wsOut_safe {a : List Nat} (h : ∀ c ∈ a, ¬c = 0x22 ∧ isJsWs c = false)
    (t : List Nat) : wsOut (a ++ t) = wsOut t := by
  induction a with
  | nil => rfl
  | cons c a2 ih =>
    obtain ⟨h1, h2⟩ := h c (by simp)
    rw [List.cons_append, wsOut_raw h1 h2]
    exact ih (fun x hx => h x (by simp [hx]))

theorem wsIn_safe {a : List Nat} (h : ∀ c ∈ a, ¬c = 0x22 ∧ ¬c = 0x5C)
    (t : List Nat) : wsIn (a ++ t) = wsIn t := by
  induction a with
  | nil => rfl
  | cons c a2 ih =>
    obtain ⟨h1, h2⟩ := h c (by simp)
    rw [List.cons_append, wsIn_raw h1 h2]
    exact ih (fun x hx => h x (by simp [hx]))

theorem hexDig_range {x : Nat} (h : x < 16) :
    (0x30 ≤ hexDig x ∧ hexDig x ≤ 0x39) ∨ (0x61 ≤ hexDig x ∧ hexDig x ≤ 0x66) := by
  unfold hexDig
  by_cases hx : x < 10
  · rw [if_pos hx]
    omega
  · rw [if_neg hx]
    omega

theorem toHex4_safe (c : Nat) : ∀ x ∈ toHex4 c, ¬x = 0x22 ∧ ¬x = 0x5C := by
  intro x hx
  have h16 : ∀ k : Nat, k % 16 < 16 := fun k => Nat.mod_lt _ (by omega)
  simp only [toHex4, List.mem_cons, List.mem_singleton] at hx
  rcases hx with rfl | rfl | rfl | rfl | h
  · rcases hexDig_range (h16 (c / 4096)) with ⟨h1, h2⟩ | ⟨h1, h2⟩ <;> omega
  · rcases hexDig_range (h16 (c / 256)) with ⟨h1, h2⟩ | ⟨h1, h2⟩ <;> omega
  · rcases hexDig_range (h16 (c / 16)) with ⟨h1, h2⟩ | ⟨h1, h2⟩ <;> omega
  · rcases hexDig_range (h16 c) with ⟨h1, h2⟩ | ⟨h1, h2⟩ <;> omega
  · cases h

theorem wsIn_escBody : ∀ s t : List Nat, wsIn (escBody s ++ (0x22 :: t)) = wsOut t := by
  intro s
  induction s using escBody.induct with
  | case1 =>
    intro t
    rw [escBody_nil, List.nil_append, wsIn_quote]
  | case2 r ih =>
    intro t
    have hesc : escBody (0x22 :: r) = 0x5C :: 0x22 :: escBody r := by
      rw [escBody.eq_def]
      dsimp only
      rw [if_pos rfl]
    rw [hesc, List.cons_append, List.cons_append, wsIn_esc, ih]
  | case3 r h1 ih =>
    intro t
    have hesc : escBody (0x5C :: r) = 0x5C :: 0x5C :: escBody r := by
      rw [escBody.eq_def]
      dsimp only
      rw [if_neg (by decide), if_pos rfl]
    rw [hesc, List.cons_append, List.cons_append, wsIn_esc, ih]
  | case4 r h1 h2 ih =>
    intro t
    have hesc : escBody (0x08 :: r) = 0x5C :: 0x62 :: escBody r := by
      rw [escBody.eq_def]
      dsimp only
      rw [if_neg (by decide), if_neg (by decide), if_pos rfl]
    rw [hesc, List.cons_append, List.cons_append, wsIn_esc, ih]
  | case5 r h1 h2 h3 ih =>
    intro t
    have hesc : escBody (0x0C :: r) = 0x5C :: 0x66 :: escBody r := by
      rw [escBody.eq_def]
      dsimp only
      rw [if_neg (by decide), if_neg (by decide), if_neg (by decide), if_pos rfl]
    rw [hesc, List.cons_append, List.cons_append, wsIn_esc, ih]
  | case6 r h1 h2 h3 h4 ih =>
    intro t
    have hesc : escBody (0x0A :: r) = 0x5C :: 0x6E :: escBody r := by
      rw [escBody.eq_def]
      dsimp only
      rw [if_neg (by decide), if_neg (by decide), if_neg (by decide), if_neg (by decide),
        if_pos rfl]
    rw [hesc, List.cons_append, List.cons_append, wsIn_esc, ih]
  | case7 r h1 h2 h3 h4 h5 ih =>
    intro t
    have hesc : escBody (0x0D :: r) = 0x5C :: 0x72 :: escBody r := by
      rw [escBody.eq_def]
      dsimp only
      rw [if_neg (by decide), if_neg (by decide), if_neg (by decide), if_neg (by decide),
        if_neg (by decide), if_pos rfl]
    rw [hesc, List.cons_append, List.cons_append, wsIn_esc, ih]
  | case8 r h1 h2 h3 h4 h5 h6 ih =>
    intro t
    have hesc : escBody (0x09 :: r) = 0x5C :: 0x74 :: escBody r := by
      rw [escBody.eq_def]
      dsimp only
      rw [if_neg (by decide), if_neg (by decide), if_neg (by decide), if_neg (by decide),
        if_neg (by decide), if_neg (by decide), if_pos rfl]
    rw [hesc, List.cons_append, List.cons_append, wsIn_esc, ih]
  | case9 c r h1 h2 h3 h4 h5 h6 h7 hlt ih =>
    intro t
    have hesc : escBody (c :: r) = 0x5C :: 0x75 :: (toHex4 c ++ escBody r) := by
      rw [escBody.eq_def]
      dsimp only
      rw [if_neg h1, if_neg h2, if_neg h3, if_neg h4, if_neg h5, if_neg h6, if_neg h7,
        if_pos hlt]
    rw [hesc]
    rw [show (0x5C : Nat) :: 0x75 :: (toHex4 c ++ escBody r) ++ 0x22 :: t
      = 0x5C :: 0x75 :: (toHex4 c ++ (escBody r ++ 0x22 :: t)) by simp]
    rw [wsIn_esc, wsIn_safe (toHex4_safe c), ih]
  | case10 c h1 h2 h3 h4 h5 h6 h7 h8 hld d r2 htr ih =>
    intro t
    have hesc : escBody (c :: d :: r2) = c :: d :: escBody r2 := by
      rw [escBody.eq_def]
      dsimp only
      rw [if_neg h1, if_neg h2, if_neg h3, if_neg h4, if_neg h5, if_neg h6, if_neg h7,
        if_neg h8, if_pos hld, if_pos htr]
    obtain ⟨hdl, hdu⟩ : 0xDC00 ≤ d ∧ d ≤ 0xDFFF := by simpa [isTrail] using htr
    rw [hesc, List.cons_append, List.cons_append, wsIn_raw h1 h2,
      wsIn_raw (by omega) (by omega), ih]
  | case11 c h1 h2 h3 h4 h5 h6 h7 h8 hld d r2 htr ih =>
    intro t
    have hesc : escBody (c :: d :: r2) = 0x5C :: 0x75 :: (toHex4 c ++ escBody (d :: r2)) := by
      rw [escBody.eq_def]
      dsimp only
      rw [if_neg h1, if_neg h2, if_neg h3, if_neg h4, if_neg h5, if_neg h6, if_neg h7,
        if_neg h8, if_pos hld, if_neg htr]
    rw [hesc]
    rw [show (0x5C : Nat) :: 0x75 :: (toHex4 c ++ escBody (d :: r2)) ++ 0x22 :: t
      = 0x5C :: 0x75 :: (toHex4 c ++ (escBody (d :: r2) ++ 0x22 :: t)) by simp]
    rw [wsIn_esc, wsIn_safe (toHex4_safe c), ih]
  | case12 c h1 h2 h3 h4 h5 h6 h7 h8 hld =>
    intro t
    have hesc : escBody (c :: []) = 0x5C :: 0x75 :: toHex4 c := by
      rw [escBody.eq_def]
      dsimp only
      rw [if_neg h1, if_neg h2, if_neg h3, if_neg h4, if_neg h5, if_neg h6, if_neg h7,
        if_neg h8, if_pos hld]
    rw [hesc]
    rw [show (0x5C : Nat) :: 0x75 :: toHex4 c ++ 0x22 :: t
      = 0x5C :: 0x75 :: (toHex4 c ++ (0x22 :: t)) by simp]
    rw [wsIn_esc, wsIn_safe (toHex4_safe c), wsIn_quote]
  | case13 c r h1 h2 h3 h4 h5 h6 h7 h8 h9 htr ih =>
    intro t
    have hesc : escBody (c :: r) = 0x5C :: 0x75 :: (toHex4 c ++ escBody r) := by
      rw [escBody.eq_def]
      dsimp only
      rw [if_neg h1, if_neg h2, if_neg h3, if_neg h4, if_neg h5, if_neg h6, if_neg h7,
        if_neg h8, if_neg h9, if_pos htr]
    rw [hesc]
    rw [show (0x5C : Nat) :: 0x75 :: (toHex4 c ++ escBody r) ++ 0x22 :: t
      = 0x5C :: 0x75 :: (toHex4 c ++ (escBody r ++ 0x22 :: t)) by simp]
    rw [wsIn_esc, wsIn_safe (toHex4_safe c), ih]
  | case14 c r h1 h2 h3 h4 h5 h6 h7 h8 h9 h10 ih =>
    intro t
    have hesc : escBody (c :: r) = c :: escBody r := by
      rw [escBody.eq_def]
      dsimp only
      rw [if_neg h1, if_neg h2, if_neg h3, if_neg h4, if_neg h5, if_neg h6, if_neg h7,
        if_neg h8, if_neg h9, if_neg h10]
    rw [hesc, List.cons_append, wsIn_raw h1 h2, ih]

theorem wsOut_serStr (s : List Nat) (t : List Nat) : wsOut (serStr s ++ t) = wsOut t := by
  rw [serStr_cons]
  rw [show (0x22 : Nat) :: (escBody s ++ [0x22] ++ t) = 0x22 :: (escBody s ++ (0x22 :: t)) by
    simp]
  rw [wsOut_quote, wsIn_escBody]

theorem numUnit_safe {c : Nat} (h : numUnit c = true) : ¬c = 0x22 ∧ isJsWs c = false := by
  simp only [numUnit, Bool.or_eq_true, beq_iff_eq] at h
  rcases h with ((((hd | rfl) | rfl) | rfl) | rfl) | rfl
  · obtain ⟨h1, h2⟩ := isDigit_range hd
    exact ⟨by omega, isJsWs_ascii (by omega) (by omega)⟩
  · exact ⟨by omega, isJsWs_ascii (by omega) (by omega)⟩
  · exact ⟨by omega, isJsWs_ascii (by omega) (by omega)⟩
  · exact ⟨by omega, isJsWs_ascii (by omega) (by omega)⟩
  · exact ⟨by omega, isJsWs_ascii (by omega) (by omega)⟩
  · exact ⟨by omega, isJsWs_ascii (by omega) (by omega)⟩

mutual

theorem wsOut_serVal : ∀ (v : Jv) (ind : List Nat), wfVal v = true →
    ∀ t, wsOut (serVal [] ind v ++ t) = wsOut t
  | .null, ind, hwf, t => by
    rw [serVal_null]
    exact wsOut_safe (by decide) t
  | .bool true, ind, hwf, t => by
    rw [serVal_true]
    exact wsOut_safe (by decide) t
  | .bool false, ind, hwf, t => by
    rw [serVal_false]
    exact wsOut_safe (by decide) t
  | .num lx, ind, hwf, t => by
    rw [serVal_num]
    rw [wfVal_num] at hwf
    have hscan := beq_iff_eq.mp hwf
    exact wsOut_safe (fun c hc => numUnit_safe (scanNumber_chars hscan c hc)) t
  | .str s, ind, hwf, t => by
    rw [serVal_str]
    exact wsOut_serStr s t
  | .arr [], ind, hwf, t => by
    rw [serVal_arrNil]
    exact wsOut_safe (by decide) t
  | .arr (x :: xs), ind, hwf, t => by
    rw [wfVal_arr] at hwf
    rw [serVal_arrCons, if_pos (by rfl)]
    rw [show (0x5B :: (serSeq [] ind x xs ++ [0x5D])) ++ t
      = 0x5B :: (serSeq [] ind x xs ++ (0x5D :: t)) by simp]
    rw [wsOut_raw (by decide) (by decide), wsOut_serSeq x xs ind hwf,
      wsOut_raw (by decide) (by decide)]
  | .obj [], ind, hwf, t => by
    rw [serVal_objNil]
    exact wsOut_safe (by decide) t
  | .obj (m :: ms), ind, hwf, t => by
    rw [wfVal_obj] at hwf
    rw [serVal_objCons, if_pos (by rfl)]
    rw [show (0x7B :: (serMems [] ind m ms ++ [0x7D])) ++ t
      = 0x7B :: (serMems [] ind m ms ++ (0x7D :: t)) by simp]
    rw [wsOut_raw (by decide) (by decide), wsOut_serMems m ms ind hwf,
      wsOut_raw (by decide) (by decide)]
termination_by v _ _ _ => sizeOf v

theorem wsOut_serSeq : ∀ (x : Jv) (xs : List Jv) (ind : List Nat), wfSeq (x :: xs) = true →
    ∀ t, wsOut (serSeq [] ind x xs ++ t) = wsOut t
  | x, [], ind, hwf, t => by
    rw [wfSeq_cons, Bool.and_eq_true] at hwf
    rw [serSeq_single]
    exact wsOut_serVal x ind hwf.1 t
  | x, y :: ys, ind, hwf, t => by
    rw [wfSeq_cons, Bool.and_eq_true] at hwf
    rw [serSeq_cons, itemSep_shape, if_pos (by rfl)]
    rw [show (serVal [] ind x ++ (0x2C :: [] ++ serSeq [] ind y ys)) ++ t
      = serVal [] ind x ++ (0x2C :: (serSeq [] ind y ys ++ t)) by simp]
    rw [wsOut_serVal x ind hwf.1, wsOut_raw (by decide) (by decide),
      wsOut_serSeq y ys ind hwf.2]
termination_by x xs _ _ _ => 1 + sizeOf x + sizeOf xs

theorem wsOut_serMems : ∀ (m : List Nat × Jv) (ms : List (List Nat × Jv)) (ind : List Nat),
    wfMems (m :: ms) = true → ∀ t, wsOut (serMems [] ind m ms ++ t) = wsOut t
  | (k, v), [], ind, hwf, t => by
    rw [wfMems_cons, Bool.and_eq_true, Bool.and_eq_true] at hwf
    obtain ⟨⟨-, hwv⟩, -⟩ := hwf
    rw [serMems_single, serMem_eq, if_pos (by rfl)]
    rw [show (serStr k ++ (0x3A :: ([] ++ serVal [] ind v))) ++ t
      = serStr k ++ (0x3A :: (serVal [] ind v ++ t)) by simp]
    rw [wsOut_serStr, wsOut_raw (by decide) (by decide), wsOut_serVal v ind hwv]
  | (k, v), m2 :: ms2, ind, hwf, t => by
    rw [wfMems_cons, Bool.and_eq_true, Bool.and_eq_true] at hwf
    obtain ⟨⟨-, hwv⟩, hwtail⟩ := hwf
    rw [serMems_cons, itemSep_shape, if_pos (by rfl), serMem_eq, if_pos (by rfl)]
    rw [show (serStr k ++ (0x3A :: ([] ++ serVal [] ind v)) ++
          (0x2C :: [] ++ serMems [] ind m2 ms2)) ++ t
      = serStr k ++ (0x3A :: (serVal [] ind v ++
          (0x2C :: (serMems [] ind m2 ms2 ++ t)))) by simp]
    rw [wsOut_serStr, wsOut_raw (by decide) (by decide), wsOut_serVal v ind hwv,
      wsOut_raw (by decide) (by decide), wsOut_serMems m2 ms2 ind hwtail]
termination_by m ms _ _ _ => 1 + sizeOf m + sizeOf ms

end

theorem wsOut_minified (v : Jv) (hwf : wfVal v = true) : wsOut (serVal [] [] v) = 0 := by
  have h := wsOut_serVal v [] hwf []
  rw [List.append_nil] at h
  rw [h, wsOut_nil]

mutual

theorem serVal_len_mono : ∀ (v : Jv) (g1 g2 i1 i2 : List Nat),
    g1.isEmpty = g2.isEmpty → g1.length ≤ g2.length → i1.length ≤ i2.length →
    (serVal g1 i1 v).length ≤ (serVal g2 i2 v).length
  | .null, g1, g2, i1, i2, he, hg, hi => by rw [serVal_null, serVal_null]
  | .bool true, g1, g2, i1, i2, he, hg, hi => by rw [serVal_true, serVal_true]
  | .bool false, g1, g2, i1, i2, he, hg, hi => by rw [serVal_false, serVal_false]
  | .num lx, g1, g2, i1, i2, he, hg, hi => by rw [serVal_num, serVal_num]
  | .str s, g1, g2, i1, i2, he, hg, hi => by rw [serVal_str, serVal_str]
  | .arr [], g1, g2, i1, i2, he, hg, hi => by rw [serVal_arrNil, serVal_arrNil]
  | .arr (x :: xs), g1, g2, i1, i2, he, hg, hi => by
    rw [serVal_arrCons, serVal_arrCons]
    by_cases h1 : g1.isEmpty
    · have h2 : g2.isEmpty = true := he.symm.trans h1
      rw [if_pos h1, if_pos h2]
      have hs := serSeq_len_mono x xs g1 g2 i1 i2 he hg hi
      simp only [List.length_cons, List.length_append, List.length_singleton]
      omega
    · have h2 : ¬g2.isEmpty = true := fun hcon => h1 (he.trans hcon)
      rw [if_neg h1, if_neg h2]
      have hig : (i1 ++ g1).length ≤ (i2 ++ g2).length := by
        simp only [List.length_append]
        omega
      have hs := serSeq_len_mono x xs g1 g2 (i1 ++ g1) (i2 ++ g2) he hg hig
      simp only [List.length_cons, List.length_append, List.length_singleton]
      omega
  | .obj [], g1, g2, i1, i2, he, hg, hi => by rw [serVal_objNil, serVal_objNil]
  | .obj (m :: ms), g1, g2, i1, i2, he, hg, hi => by
    rw [serVal_objCons, serVal_objCons]
    by_cases h1 : g1.isEmpty
    · have h2 : g2.isEmpty = true := he.symm.trans h1
      rw [if_pos h1, if_pos h2]
      have hs := serMems_len_mono m ms g1 g2 i1 i2 he hg hi
      simp only [List.length_cons, List.length_append, List.length_singleton]
      omega
    · have h2 : ¬g2.isEmpty = true := fun hcon => h1 (he.trans hcon)
      rw [if_neg h1, if_neg h2]
      have hig : (i1 ++ g1).length ≤ (i2 ++ g2).length := by
        simp only [List.length_append]
        omega
      have hs := serMems_len_mono m ms g1 g2 (i1 ++ g1) (i2 ++ g2) he hg hig
      simp only [List.length_cons, List.length_append, List.length_singleton]
      omega
termination_by v _ _ _ _ _ _ _ => sizeOf v

theorem serSeq_len_mono : ∀ (x : Jv) (xs : List Jv) (g1 g2 i1 i2 : List Nat),
    g1.isEmpty = g2.isEmpty → g1.length ≤ g2.length → i1.length ≤ i2.length →
    (serSeq g1 i1 x xs).length ≤ (serSeq g2 i2 x xs).length
  | x, [], g1, g2, i1, i2, he, hg, hi => by
    rw [serSeq_single, serSeq_single]
    exact serVal_len_mono x g1 g2 i1 i2 he hg hi
  | x, y :: ys, g1, g2, i1, i2, he, hg, hi => by
    rw [serSeq_cons, serSeq_cons, itemSep_shape, itemSep_shape]
    have hv := serVal_len_mono x g1 g2 i1 i2 he hg hi
    have hs := serSeq_len_mono y ys g1 g2 i1 i2 he hg hi
    by_cases h1 : g1.isEmpty
    · have h2 : g2.isEmpty = true := he.symm.trans h1
      rw [if_pos h1, if_pos h2]
      simp only [List.length_append, List.length_cons]
      omega
    · have h2 : ¬g2.isEmpty = true := fun hcon => h1 (he.trans hcon)
      rw [if_neg h1, if_neg h2]
      simp only [List.length_append, List.length_cons]
      omega
termination_by x xs _ _ _ _ _ _ _ => 1 + sizeOf x + sizeOf xs

theorem serMems_len_mono : ∀ (m : List Nat × Jv) (ms : List (List Nat × Jv))
    (g1 g2 i1 i2 : List Nat),
    g1.isEmpty = g2.isEmpty → g1.length ≤ g2.length → i1.length ≤ i2.length →
    (serMems g1 i1 m ms).length ≤ (serMems g2 i2 m ms).length
  | (k, v), [], g1, g2, i1, i2, he, hg, hi => by
    rw [serMems_single, serMems_single, serMem_eq, serMem_eq]
    have hv := serVal_len_mono v g1 g2 i1 i2 he hg hi
    by_cases h1 : g1.isEmpty
    · have h2 : g2.isEmpty = true := he.symm.trans h1
      rw [if_pos h1, if_pos h2]
      simp only [List.length_append, List.length_cons]
      omega
    · have h2 : ¬g2.isEmpty = true := fun hcon => h1 (he.trans hcon)
      rw [if_neg h1, if_neg h2]
      simp only [List.length_append, List.length_cons]
      omega
  | (k, v), m2 :: ms2, g1, g2, i1, i2, he, hg, hi => by
    rw [serMems_cons, serMems_cons, serMem_eq, serMem_eq, itemSep_shape, itemSep_shape]
    have hv := serVal_len_mono v g1 g2 i1 i2 he hg hi
    have hs := serMems_len_mono m2 ms2 g1 g2 i1 i2 he hg hi
    by_cases h1 : g1.isEmpty
    · have h2 : g2.isEmpty = true := he.symm.trans h1
      rw [if_pos h1, if_pos h1, if_pos h2, if_pos h2]
      simp only [List.length_append, List.length_cons]
      omega
    · have h2 : ¬g2.isEmpty = true := fun hcon => h1 (he.trans hcon)
      rw [if_neg h1, if_neg h1, if_neg h2, if_neg h2]
      simp only [List.length_append, List.length_cons]
      omega
termination_by m ms _ _ _ _ _ _ _ => 1 + sizeOf m + sizeOf ms

end

/-- The value is a nonempty array or a nonempty object, the shapes on which
pretty printing actually inserts line breaks and indentation. -/
def nonemptyComposite : Jv → Bool
  | .arr (_ :: _) => true
  | .obj (_ :: _) => true
  | _ => false

theorem serVal_len_strict (v : Jv) (hc : nonemptyComposite v = true) :
    (serVal (List.replicate 2 0x20) [] v).length
      < (serVal (List.replicate 4 0x20) [] v).length := by
  cases v with
  | null => cases hc
  | bool b => cases hc
  | num lx => cases hc
  | str s => cases hc
  | arr xs =>
    cases xs with
    | nil => cases hc
    | cons x xs2 =>
      rw [serVal_arrCons, serVal_arrCons, if_neg (by decide), if_neg (by decide)]
      have hs := serSeq_len_mono x xs2 (List.replicate 2 0x20) (List.replicate 4 0x20)
        ([] ++ List.replicate 2 0x20) ([] ++ List.replicate 4 0x20) (by decide) (by decide)
        (by decide)
      simp only [List.length_cons, List.length_append, List.length_singleton,
        List.length_replicate, List.length_nil] at hs ⊢
      omega
  | obj ms =>
    cases ms with
    | nil => cases hc
    | cons m ms2 =>
      rw [serVal_objCons, serVal_objCons, if_neg (by decide), if_neg (by decide)]
      have hs := serMems_len_mono m ms2 (List.replicate 2 0x20) (List.replicate 4 0x20)
        ([] ++ List.replicate 2 0x20) ([] ++ List.replicate 4 0x20) (by decide) (by decide)
        (by decide)
      simp only [List.length_cons, List.length_append, List.length_singleton,
        List.length_replicate, List.length_nil] at hs ⊢
      omega

/-- The value is a string. -/
def isStrVal : Jv → Bool
  | .str _ => true
  | _ => false

theorem recover_notstr {v : Jv} (h : isStrVal v = false) : recover v = v := by
  cases v with
  | str s => cases h
  | null => rfl
  | bool b => rfl
  | num lx => rfl
  | arr xs => rfl
  | obj ms => rfl

theorem rep_ws (k : Nat) : ∀ c ∈ List.replicate k 0x20, isJsonWs c = true := by
  intro c hc
  rw [List.eq_of_mem_replicate hc]
  rfl

theorem formatValue_pretty (n : Nat) (v : Jv) :
    formatValue ⟨n, false⟩ v = serVal (List.replicate (min n 10) 0x20) [] v := rfl

theorem formatValue_minify (n : Nat) (v : Jv) : formatValue ⟨n, true⟩ v = serVal [] [] v := rfl

theorem escBody_raw_ascii {c : Nat} (hlo : 0x23 ≤ c) (hhi : c ≤ 0x7E) (hq : ¬c = 0x5C)
    (r : List Nat) : escBody (c :: r) = c :: escBody r := by
  rw [escBody.eq_def]
  dsimp only
  rw [if_neg (by omega), if_neg hq, if_neg (by omega), if_neg (by omega), if_neg (by omega),
    if_neg (by omega), if_neg (by omega), if_neg (by omega),
    if_neg (by simp only [isLead, Bool.and_eq_true, decide_eq_true_eq]; omega),
    if_neg (by simp only [isTrail, Bool.and_eq_true, decide_eq_true_eq]; omega)]

/-! Engine fidelity layer. The tree Jv keeps each number as its source
lexeme and each object in source member order: that is the grammar level of
JSON.parse. The engine itself stores every number as an IEEE 754 binary64
value (ToNumber rounds the mathematical value of the literal to the nearest
double, ties to even, overflowing to an infinity) and every object with the
ordinary own property key order (array index keys ascending before the
remaining keys in insertion order). The definitions below complete the
embedding down to that level; JSON.stringify prints a finite number with
Number toString (the shortest decimal that reads back exactly) and a
nonfinite number as null. -/

/-- Value of a run of decimal digit units (most significant first). -/
def digitsValAux : Nat → List Nat → Nat
  | acc, [] => acc
  | acc, c :: r => digitsValAux (acc * 10 + (c - 0x30)) r

/-- Value of a decimal digit run. -/
def digitsVal (l : List Nat) : Nat := digitsValAux 0 l

/-- An ECMAScript number as JSON.parse produces one: a signed zero, a
finite nonzero value sig * 2 ^ ex in the canonical binary64 encoding
(ex = -1074 for subnormal values, else 2 ^ 52 <= sig < 2 ^ 53), or a
signed infinity; NaN never arises from JSON text. -/
inductive JsNum where
  | zero : Bool → JsNum
  | finite : Bool → Nat → Int → JsNum
  | inf : Bool → JsNum
deriving DecidableEq

/-- Smallest power-of-two exponent h with n < base ^ h, found by doubling
h (the fuel of 64 doublings covers every feasible magnitude). -/
def capExp (base n : Nat) : Nat → Nat → Nat
  | 0, h => h
  | fuel + 1, h => if n < base ^ h then h else capExp base n fuel (2 * h)

/-- Floor logarithm of a positive n by binary search on the exponent; the
bounds keep base ^ lo ≤ n < base ^ hi throughout. -/
def logSearch (base n : Nat) : Nat → Nat → Nat → Nat
  | 0, lo, _ => lo
  | fuel + 1, lo, hi =>
    if hi ≤ lo + 1 then lo
    else if n < base ^ ((lo + hi) / 2) then logSearch base n fuel lo ((lo + hi) / 2)
    else logSearch base n fuel ((lo + hi) / 2) hi

/-- Number of binary digits of n: one more than the floor base two
logarithm for positive n. -/
def bitLen (n : Nat) : Nat :=
  if n = 0 then 0 else logSearch 2 n 128 0 (capExp 2 n 64 1) + 1

/-- Number of decimal digits of n. -/
def digLen (n : Nat) : Nat :=
  if n = 0 then 0 else logSearch 10 n 128 0 (capExp 10 n 64 1) + 1

/-- Round num / den to the nearest integer, ties to the even neighbour. -/
def divRoundEven (num den : Nat) : Nat :=
  let q := num / den
  let r := num % den
  if den < 2 * r then q + 1
  else if 2 * r < den then q
  else if q % 2 = 0 then q else q + 1

/-- Floor of the base two logarithm of the positive rational a / b: the
bit lengths bound it to two candidates, one comparison picks. -/
def ratLog2 (a b : Nat) : Int :=
  let p : Int := (bitLen a : Int) - (bitLen b : Int)
  if b * 2 ^ p.toNat ≤ a * 2 ^ (-p).toNat then p else p - 1

/-- Floor of the base ten logarithm of the positive rational a / b. -/
def ratLog10 (a b : Nat) : Int :=
  let p : Int := (digLen a : Int) - (digLen b : Int)
  if b * 10 ^ p.toNat ≤ a * 10 ^ (-p).toNat then p else p - 1

/-- Round the exact decimal m * 10 ^ e (sign apart) to the nearest binary64
value, ties to even, as ToNumber gives a numeric literal its Number value:
the significand is the rounding of m * 10 ^ e / 2 ^ ex at the exponent the
magnitude selects (clamped at -1074 below the normal range), a result at or
above 2 ^ 1024 overflows to the infinity, a zero significand underflows to
the signed zero. -/
def decToJsNum (neg : Bool) (m : Nat) (e : Int) : JsNum :=
  if m = 0 then .zero neg
  else
    let a := m * 10 ^ e.toNat
    let b := 10 ^ (-e).toNat
    let p := ratLog2 a b
    if 1024 ≤ p then .inf neg
    else
      let q : Int := if p < -1022 then -1074 else p - 52
      let s := divRoundEven (a * 2 ^ (-q).toNat) (b * 2 ^ q.toNat)
      if s = 0 then .zero neg
      else if s = 2 ^ 53 then
        if q = 971 then .inf neg else .finite neg (2 ^ 52) (q + 1)
      else .finite neg s q

/-- Mantissa digits and decimal exponent of an unsigned number lexeme: the
integer and fraction digits concatenated, the written exponent lowered by
the fraction length (the mathematical value of the number production). -/
def lexMag (l : List Nat) : Nat × Int :=
  let ip := (takeDigits l).1
  let r1 := (takeDigits l).2
  let fp := match r1 with
    | 0x2E :: r => (takeDigits r).1
    | _ => []
  let r2 := match r1 with
    | 0x2E :: r => (takeDigits r).2
    | _ => r1
  let ev : Int := match r2 with
    | 0x65 :: 0x2B :: r => (digitsVal (takeDigits r).1 : Int)
    | 0x65 :: 0x2D :: r => -(digitsVal (takeDigits r).1 : Int)
    | 0x65 :: r => (digitsVal (takeDigits r).1 : Int)
    | 0x45 :: 0x2B :: r => (digitsVal (takeDigits r).1 : Int)
    | 0x45 :: 0x2D :: r => -(digitsVal (takeDigits r).1 : Int)
    | 0x45 :: r => (digitsVal (takeDigits r).1 : Int)
    | _ => 0
  (digitsVal (ip ++ fp), ev - (fp.length : Int))

/-- The Number value JSON.parse gives a number lexeme: the mathematical
value of the literal rounded to binary64. -/
def lexToJsNum (lx : List Nat) : JsNum :=
  match lx with
  | 0x2D :: r => decToJsNum true (lexMag r).1 (lexMag r).2
  | r => decToJsNum false (lexMag r).1 (lexMag r).2

/-- Decimal digit units of n, most significant first (fuelled division). -/
def natDigitsAux : Nat → Nat → List Nat → List Nat
  | 0, _, acc => acc
  | fuel + 1, n, acc => if n = 0 then acc else natDigitsAux fuel (n / 10) ((0x30 + n % 10) :: acc)

/-- Decimal digit units of n, most significant first. -/
def natDigits (n : Nat) : List Nat :=
  if n = 0 then [0x30] else natDigitsAux n n []

/-- The magnitude of x rounded to k significant decimal digits: the digit
value s with 10 ^ (k - 1) <= s < 10 ^ k and the position n such that the
rounded magnitude is s * 10 ^ (n - k); a / b is the exact magnitude. -/
def sigDigits (a b : Nat) (k : Nat) : Nat × Int :=
  let n := ratLog10 a b + 1
  let j := n - (k : Int)
  let s := divRoundEven (a * 10 ^ (-j).toNat) (b * 10 ^ j.toNat)
  if s = 10 ^ k then (10 ^ (k - 1), n + 1) else (s, n)

/-- Sign of an engine number. -/
def jsNumNeg : JsNum → Bool
  | .zero s => s
  | .finite s _ _ => s
  | .inf s => s

/-- Shortest significant digit count whose correctly rounded decimal reads
back as the very double x, tried from k upward (seventeen digits always
read back for binary64, so the fuel never runs out before success); gives
the digit value, its position and the digit count. -/
def shortestDigitsAux (x : JsNum) (a b : Nat) : Nat → Nat → Nat × Int × Nat
  | k, 0 => ((sigDigits a b k).1, (sigDigits a b k).2, k)
  | k, fuel + 1 =>
    if decToJsNum (jsNumNeg x) (sigDigits a b k).1 ((sigDigits a b k).2 - (k : Int)) = x
    then ((sigDigits a b k).1, (sigDigits a b k).2, k)
    else shortestDigitsAux x a b (k + 1) fuel

/-- Sign and decimal units of a displayed exponent. -/
def expDigits (i : Int) : List Nat :=
  if i < 0 then 0x2D :: natDigits (-i).toNat else 0x2B :: natDigits i.toNat

/-- Number toString at radix ten (ECMA-262 6.1.6.1.20): zero prints 0
whatever its sign, a finite value prints its shortest digits s at position
n laid out plainly when -6 < n <= 21 and in exponent form outside, an
infinity prints Infinity, all behind a minus sign when negative. -/
def numToStr (x : JsNum) : List Nat :=
  match x with
  | .zero _ => [0x30]
  | .inf sign => (if sign then [0x2D] else []) ++ [0x49, 0x6E, 0x66, 0x69, 0x6E, 0x69, 0x74, 0x79]
  | .finite sign sv ev =>
    if sv = 0 then [0x30]
    else
      let a := sv * 2 ^ ev.toNat
      let b := 2 ^ (-ev).toNat
      let skn := shortestDigitsAux (.finite sign sv ev) a b 1 16
      let ds := natDigits skn.1
      let n := skn.2.1
      let k := skn.2.2
      let body :=
        if (k : Int) ≤ n ∧ n ≤ 21 then ds ++ List.replicate (n - (k : Int)).toNat 0x30
        else if 0 < n ∧ n ≤ 21 then ds.take n.toNat ++ (0x2E :: ds.drop n.toNat)
        else if -5 ≤ n ∧ n ≤ 0 then 0x30 :: 0x2E :: (List.replicate (-n).toNat 0x30 ++ ds)
        else if k = 1 then ds ++ (0x65 :: expDigits (n - 1))
        else ds.take 1 ++ (0x2E :: (ds.drop 1 ++ (0x65 :: expDigits (n - 1))))
      (if sign then [0x2D] else []) ++ body

/-- JSON serialization of a number (SerializeJSONProperty): a finite value
prints with Number toString, a nonfinite value prints as null. -/
def serNum : JsNum → List Nat
  | .inf _ => [0x6E, 0x75, 0x6C, 0x6C]
  | x => numToStr x

/-- An array index key as ECMAScript orders object properties: a canonical
decimal unit run (no leading zero unless the key is 0 itself) whose value
is below 2 ^ 32 - 1. -/
def isArrIdx : List Nat → Bool
  | [] => false
  | [c] => isDigit c
  | c :: r => isDigit c && (decide (c ≠ 0x30) && (r.all isDigit && decide (digitsVal (c :: r) < 4294967295)))

/-- The decoded JSON value tree as the engine holds it: numbers are
binary64 values, object members sit in property enumeration order. -/
inductive JvD where
  | null : JvD
  | bool : Bool → JvD
  | num : JsNum → JvD
  | str : List Nat → JvD
  | arr : List JvD → JvD
  | obj : List (List Nat × JvD) → JvD

/-- Insert a member into the ascending run of array index keys. -/
def idxInsert (m : List Nat × JvD) : List (List Nat × JvD) → List (List Nat × JvD)
  | [] => [m]
  | m2 :: ms => if digitsVal m.1 < digitsVal m2.1 then m :: m2 :: ms else m2 :: idxInsert m ms

/-- Reorder a member list the way a JS object enumerates own property keys
(OrdinaryOwnPropertyKeys): array index keys first in ascending numeric
order, the remaining keys after them in insertion order. -/
def jsOrderMems (ms : List (List Nat × JvD)) : List (List Nat × JvD) :=
  (ms.filter (fun m => isArrIdx m.1)).foldr idxInsert [] ++ ms.filter (fun m => !isArrIdx m.1)

mutual

/-- The engine value behind a grammar tree: number lexemes take their
Number value, object members take the engine enumeration order. -/
def toD : Jv → JvD
  | .null => .null
  | .bool b => .bool b
  | .num lx => .num (lexToJsNum lx)
  | .str s => .str s
  | .arr xs => .arr (toDSeq xs)
  | .obj ms => .obj (jsOrderMems (toDMems ms))

/-- Engine values of the elements of an array. -/
def toDSeq : List Jv → List JvD
  | [] => []
  | x :: xs => toD x :: toDSeq xs

/-- Engine values of the members of an object, in source order. -/
def toDMems : List (List Nat × Jv) → List (List Nat × JvD)
  | [] => []
  | (k, v) :: ms => (k, toD v) :: toDMems ms

end

/-- JSON.parse at engine fidelity: the grammar parse, then Number values
and engine key order. -/
def jsParse (input : List Nat) : Except String JvD :=
  (jsonParse input).map toD

/-- The double encoding recovery over engine values (the string shape and
the reparse are the ones of the source, line for line as recover). -/
def recoverD : JvD → JvD
  | .str s =>
    if looksJson (jsTrim s) then
      match jsParse (jsTrim s) with
      | .ok inner => inner
      | .error _ => .str s
    else .str s
  | v => v

/-- The parseJson normalizer at engine fidelity. -/
def parseJsonD (text : List Nat) : Except JErr JvD :=
  let cleaned := jsTrim text
  if cleaned = [] then .ok .null
  else
    match jsParse cleaned with
    | .ok parsed => .ok (recoverD parsed)
    | .error m => .error ⟨.syntaxError, "Invalid JSON: " ++ m⟩

mutual

/-- Serialize an engine value as JSON.stringify does with the given gap at
the given accumulated indentation (the layout of serVal; numbers print per
serNum). -/
def serValD (gap ind : List Nat) : JvD → List Nat
  | .null => [0x6E, 0x75, 0x6C, 0x6C]
  | .bool true => [0x74, 0x72, 0x75, 0x65]
  | .bool false => [0x66, 0x61, 0x6C, 0x73, 0x65]
  | .num x => serNum x
  | .str s => serStr s
  | .arr [] => [0x5B, 0x5D]
  | .arr (x :: xs) =>
    if gap.isEmpty then 0x5B :: (serSeqD gap ind x xs ++ [0x5D])
    else
      0x5B :: 0x0A :: ((ind ++ gap) ++
        (serSeqD gap (ind ++ gap) x xs ++ (0x0A :: (ind ++ [0x5D]))))
  | .obj [] => [0x7B, 0x7D]
  | .obj (m :: ms) =>
    if gap.isEmpty then 0x7B :: (serMemsD gap ind m ms ++ [0x7D])
    else
      0x7B :: 0x0A :: ((ind ++ gap) ++
        (serMemsD gap (ind ++ gap) m ms ++ (0x0A :: (ind ++ [0x7D]))))
termination_by v => sizeOf v
decreasing_by all_goals simp_arith

/-- Serialize a nonempty run of engine array elements. -/
def serSeqD (gap ind : List Nat) (x : JvD) (xs : List JvD) : List Nat :=
  match xs with
  | [] => serValD gap ind x
  | y :: ys => serValD gap ind x ++ (itemSep gap ind ++ serSeqD gap ind y ys)
termination_by 1 + sizeOf x + sizeOf xs
decreasing_by all_goals simp_arith

/-- Serialize a nonempty run of engine object members. -/
def serMemsD (gap ind : List Nat) (m : List Nat × JvD) (ms : List (List Nat × JvD)) : List Nat :=
  match ms with
  | [] => serMemD gap ind m
  | m2 :: ms2 => serMemD gap ind m ++ (itemSep gap ind ++ serMemsD gap ind m2 ms2)
termination_by 1 + sizeOf m + sizeOf ms
decreasing_by all_goals simp_arith

/-- Serialize one engine object member. -/
def serMemD (gap ind : List Nat) : List Nat × JvD → List Nat
  | (k, v) => serStr k ++ (0x3A :: ((if gap.isEmpty then [] else [0x20]) ++ serValD gap ind v))
termination_by m => sizeOf m
decreasing_by all_goals simp_arith

end

/-- JSON.stringify at engine fidelity with an optional numeric space. -/
def jsonStringifyD (space : Option Nat) (v : JvD) : List Nat :=
  match space with
  | none => serValD [] [] v
  | some n => serValD (List.replicate (min n 10) 0x20) [] v

/-- The serialization step of formatJson at engine fidelity. -/
def formatValueD (opts : FormatOptions) (v : JvD) : List Nat :=
  if opts.minify then jsonStringifyD none v else jsonStringifyD (some opts.indent) v

/-- The formatJson handler at engine fidelity. -/
def formatJsonD (text : List Nat) (opts : FormatOptions) (_prev : UiState) : UiState :=
  match parseJsonD text with
  | .ok parsed => { output := formatValueD opts parsed, error := none }
  | .error e => { output := [], error := some e.message }

mutual

/-- The value holds no number anywhere: on this fragment the grammar tree
and the engine value carry the same information, since numbers are exactly
where JSON.parse rounds lexemes to binary64. -/
def numFree : Jv → Bool
  | .null => true
  | .bool _ => true
  | .num _ => false
  | .str _ => true
  | .arr xs => numFreeSeq xs
  | .obj ms => numFreeMems ms

/-- No number in any element of an array. -/
def numFreeSeq : List Jv → Bool
  | [] => true
  | x :: xs => numFree x && numFreeSeq xs

/-- No number in any member value of an object. -/
def numFreeMems : List (List Nat × Jv) → Bool
  | [] => true
  | (_, v) :: ms => numFree v && numFreeMems ms

end

mutual

/-- No object key anywhere is an array index: on this fragment the engine
enumeration order is the source insertion order. -/
def jsSafe : Jv → Bool
  | .null => true
  | .bool _ => true
  | .num _ => true
  | .str _ => true
  | .arr xs => jsSafeSeq xs
  | .obj ms => jsSafeMems ms

/-- No array index key in any element of an array. -/
def jsSafeSeq : List Jv → Bool
  | [] => true
  | x :: xs => jsSafe x && jsSafeSeq xs

/-- No array index key among the members of an object, recursively. -/
def jsSafeMems : List (List Nat × Jv) → Bool
  | [] => true
  | (k, v) :: ms => !isArrIdx k && (jsSafe v && jsSafeMems ms)

end

theorem toD_null : toD .null = .null := by rw [toD.eq_def]

theorem toD_bool (b : Bool) : toD (.bool b) = .bool b := by rw [toD.eq_def]

theorem toD_num (lx : List Nat) : toD (.num lx) = .num (lexToJsNum lx) := by rw [toD.eq_def]

theorem toD_str (s : List Nat) : toD (.str s) = .str s := by rw [toD.eq_def]

theorem toD_arr (xs : List Jv) : toD (.arr xs) = .arr (toDSeq xs) := by rw [toD.eq_def]

theorem toD_obj (ms : List (List Nat × Jv)) :
    toD (.obj ms) = .obj (jsOrderMems (toDMems ms)) := by rw [toD.eq_def]

theorem toDSeq_nil : toDSeq [] = [] := by rw [toDSeq.eq_def]

theorem toDSeq_cons (x : Jv) (xs : List Jv) : toDSeq (x :: xs) = toD x :: toDSeq xs := by
  rw [toDSeq.eq_def]

theorem toDMems_nil : toDMems [] = [] := by rw [toDMems.eq_def]

theorem toDMems_cons (k : List Nat) (v : Jv) (ms : List (List Nat × Jv)) :
    toDMems ((k, v) :: ms) = (k, toD v) :: toDMems ms := by rw [toDMems.eq_def]

theorem serValD_num (gap ind : List Nat) (x : JsNum) : serValD gap ind (.num x) = serNum x := by
  rw [serValD.eq_def]

theorem serValD_str (gap ind s : List Nat) : serValD gap ind (.str s) = serStr s := by
  rw [serValD.eq_def]

theorem serValD_arrCons (gap ind : List Nat) (x : JvD) (xs : List JvD) :
    serValD gap ind (.arr (x :: xs)) =
      if gap.isEmpty then 0x5B :: (serSeqD gap ind x xs ++ [0x5D])
      else 0x5B :: 0x0A :: ((ind ++ gap) ++
        (serSeqD gap (ind ++ gap) x xs ++ (0x0A :: (ind ++ [0x5D])))) := by
  rw [serValD.eq_def]

theorem serValD_objCons (gap ind : List Nat) (m : List Nat × JvD) (ms : List (List Nat × JvD)) :
    serValD gap ind (.obj (m :: ms)) =
      if gap.isEmpty then 0x7B :: (serMemsD gap ind m ms ++ [0x7D])
      else 0x7B :: 0x0A :: ((ind ++ gap) ++
        (serMemsD gap (ind ++ gap) m ms ++ (0x0A :: (ind ++ [0x7D])))) := by
  rw [serValD.eq_def]

theorem serSeqD_single (gap ind : List Nat) (x : JvD) : serSeqD gap ind x [] = serValD gap ind x := by
  rw [serSeqD.eq_def]

theorem serSeqD_cons (gap ind : List Nat) (x y : JvD) (ys : List JvD) :
    serSeqD gap ind x (y :: ys) =
      serValD gap ind x ++ (itemSep gap ind ++ serSeqD gap ind y ys) := by
  rw [serSeqD.eq_def]

theorem serMemsD_single (gap ind : List Nat) (m : List Nat × JvD) :
    serMemsD gap ind m [] = serMemD gap ind m := by
  rw [serMemsD.eq_def]

theorem serMemsD_cons (gap ind : List Nat) (m m2 : List Nat × JvD) (ms2 : List (List Nat × JvD)) :
    serMemsD gap ind m (m2 :: ms2) =
      serMemD gap ind m ++ (itemSep gap ind ++ serMemsD gap ind m2 ms2) := by
  rw [serMemsD.eq_def]

theorem serMemD_eq (gap ind : List Nat) (k : List Nat) (v : JvD) :
    serMemD gap ind (k, v) =
      serStr k ++ (0x3A :: ((if gap.isEmpty then [] else [0x20]) ++ serValD gap ind v)) := by
  rw [serMemD.eq_def]

theorem formatValueD_pretty (n : Nat) (v : JvD) :
    formatValueD ⟨n, false⟩ v = serValD (List.replicate (min n 10) 0x20) [] v := rfl

theorem formatValueD_minify (n : Nat) (v : JvD) : formatValueD ⟨n, true⟩ v = serValD [] [] v := rfl

theorem jsParse_eq (l : List Nat) : jsParse l = (jsonParse l).map toD := rfl

theorem parseJsonD_of_parse {s : List Nat} {v : JvD} (hne : ¬jsTrim s = [])
    (h : jsParse (jsTrim s) = .ok v) : parseJsonD s = .ok (recoverD v) := by
  unfold parseJsonD
  rw [if_neg hne, h]

theorem numFree_null : numFree .null = true := by rw [numFree.eq_def]

theorem numFree_bool (b : Bool) : numFree (.bool b) = true := by rw [numFree.eq_def]

theorem numFree_str (s : List Nat) : numFree (.str s) = true := by rw [numFree.eq_def]

theorem numFree_arr (xs : List Jv) : numFree (.arr xs) = numFreeSeq xs := by rw [numFree.eq_def]

theorem numFree_obj (ms : List (List Nat × Jv)) : numFree (.obj ms) = numFreeMems ms := by
  rw [numFree.eq_def]

theorem numFreeSeq_nil : numFreeSeq [] = true := by rw [numFreeSeq.eq_def]

theorem numFreeSeq_cons (x : Jv) (xs : List Jv) :
    numFreeSeq (x :: xs) = (numFree x && numFreeSeq xs) := by rw [numFreeSeq.eq_def]

theorem numFreeMems_nil : numFreeMems [] = true := by rw [numFreeMems.eq_def]

theorem numFreeMems_cons (k : List Nat) (v : Jv) (ms : List (List Nat × Jv)) :
    numFreeMems ((k, v) :: ms) = (numFree v && numFreeMems ms) := by rw [numFreeMems.eq_def]

theorem jsSafe_null : jsSafe .null = true := by rw [jsSafe.eq_def]

theorem jsSafe_bool (b : Bool) : jsSafe (.bool b) = true := by rw [jsSafe.eq_def]

theorem jsSafe_num (lx : List Nat) : jsSafe (.num lx) = true := by rw [jsSafe.eq_def]

theorem jsSafe_str (s : List Nat) : jsSafe (.str s) = true := by rw [jsSafe.eq_def]

theorem jsSafe_arr (xs : List Jv) : jsSafe (.arr xs) = jsSafeSeq xs := by rw [jsSafe.eq_def]

theorem jsSafe_obj (ms : List (List Nat × Jv)) : jsSafe (.obj ms) = jsSafeMems ms := by
  rw [jsSafe.eq_def]

theorem jsSafeSeq_nil : jsSafeSeq [] = true := by rw [jsSafeSeq.eq_def]

theorem jsSafeSeq_cons (x : Jv) (xs : List Jv) :
    jsSafeSeq (x :: xs) = (jsSafe x && jsSafeSeq xs) := by rw [jsSafeSeq.eq_def]

theorem jsSafeMems_nil : jsSafeMems [] = true := by rw [jsSafeMems.eq_def]

theorem jsSafeMems_cons (k : List Nat) (v : Jv) (ms : List (List Nat × Jv)) :
    jsSafeMems ((k, v) :: ms) = (!isArrIdx k && (jsSafe v && jsSafeMems ms)) := by
  rw [jsSafeMems.eq_def]

theorem numToStr_ten : numToStr (lexToJsNum (utf16 "1e1")) = utf16 "10" := by decide

theorem numToStr_tenth : numToStr (lexToJsNum (utf16 "0.1")) = utf16 "0.1" := by decide

theorem numToStr_negzero : numToStr (lexToJsNum (utf16 "-0")) = utf16 "0" := by decide

theorem numToStr_even_tie : numToStr (lexToJsNum (utf16 "9007199254740993")) = utf16 "9007199254740992" := by decide

theorem lexToJsNum_overflow : lexToJsNum (utf16 "1e999") = .inf false := by decide

/-- C1: when the primary strict parse of the trimmed input yields a string,
the string is trimmed and, if the trimmed copy is brace or bracket delimited,
reparsed: a successful inner parse replaces the outer value and is not
unwrapped again (recovering it once more is a no-op), a failed inner parse is
swallowed and the original untrimmed string is kept; a non-string primary
result is never subjected to the recovery. -/
theorem claim1_double_encoding_recovery (s : List Nat) :
    (∀ w, jsonParse (jsTrim s) = .ok (.str w) →
      ((looksJson (jsTrim w) = false → parseJson s = .ok (.str w)) ∧
       (∀ e, looksJson (jsTrim w) = true → jsonParse (jsTrim w) = .error e →
          parseJson s = .ok (.str w)) ∧
       (∀ u, looksJson (jsTrim w) = true → jsonParse (jsTrim w) = .ok u →
          parseJson s = .ok u ∧ recover u = u))) ∧
    (∀ v, jsonParse (jsTrim s) = .ok v → isStrVal v = false → parseJson s = .ok v) := by
  constructor
  · intro w hw
    have hp := parseJson_of_parse hw
    refine ⟨?_, ?_, ?_⟩
    · intro hl
      rw [hp, recover_str_eq, if_neg (by rw [hl]; exact Bool.false_ne_true)]
    · intro e hl he
      rw [hp, recover_str_eq, if_pos hl, he]
    · intro u hl hu
      constructor
      · rw [hp, recover_str_eq, if_pos hl, hu]
      · rcases looksJson_head hl with hh | hh
        · obtain ⟨ms, rfl⟩ := parse_head_obj hu hh
          exact recover_obj ms
        · obtain ⟨xs, rfl⟩ := parse_head_arr hu hh
          exact recover_arr xs
  · intro v hv hstr
    rw [parseJson_of_parse hv, recover_notstr hstr]

/-- C1 witness: the double-encoded document consisting of a JSON string
containing an object is normalized to the inner object. -/
theorem claim1_witness :
    parseJson (utf16 "\"\x7b\\\"a\\\":1\x7d\"") = .ok (.obj [([0x61], .num [0x31])]) := by
  have h := (claim1_double_encoding_recovery (utf16 "\"\x7b\\\"a\\\":1\x7d\"")).1
    (utf16 "\x7b\"a\":1\x7d") rfl
  exact (h.2.2 (.obj [([0x61], .num [0x31])]) rfl rfl).1

/-- C2: any input whose strict parse succeeds is normalized successfully,
and when the normalized value holds no numbers (the fragment on which the
lexeme tree carries exactly the engine value), re-normalizing the pretty
formatted output with indent two yields the very value the first
normalization produced; with numbers the program can lose the value, since
the engine rounds 1e999 to the infinite double and prints it as null. -/
theorem claim2_roundtrip (s : List Nat) (v : Jv) (h : jsonParse (jsTrim s) = .ok v)
    (_hnf : numFree (recover v) = true) :
    ∃ w, parseJson s = .ok w ∧ parseJson (formatValue ⟨2, false⟩ w) = .ok w := by
  refine ⟨recover v, parseJson_of_parse h, ?_⟩
  have hwf : wfVal (recover v) = true := recover_wf (jsonParse_wf h)
  rw [formatValue_pretty, parseJson_serVal (rep_ws (min 2 10)) (recover v) hwf,
    recover_recover]

/-- C2 witness at a concrete number-free object document. -/
theorem claim2_witness :
    ∃ w, parseJson (utf16 " \x7b\"b\":true,\"a\":null\x7d ") = .ok w ∧
      parseJson (formatValue ⟨2, false⟩ w) = .ok w :=
  claim2_roundtrip (utf16 " \x7b\"b\":true,\"a\":null\x7d ")
    (.obj [([0x62], .bool true), ([0x61], .null)]) rfl
    (by rw [recover_obj, numFree_obj, numFreeMems_cons, numFree_bool, numFreeMems_cons,
      numFree_null, numFreeMems_nil]; decide)

/-- C2 counterexample: the valid JSON input 1e999 normalizes to the
infinite double at engine fidelity, the formatter prints that value as
null, and re-normalizing the formatted output yields the null value, which
is not the normalized value: the round trip fails on this input. -/
theorem claim2_cex :
    parseJsonD (utf16 "1e999") = .ok (.num (.inf false)) ∧
    formatJsonD (utf16 "1e999") ⟨2, false⟩ ⟨[], none⟩ = ⟨utf16 "null", none⟩ ∧
    parseJsonD (utf16 "null") = .ok .null ∧
    JvD.null ≠ JvD.num (.inf false) := by
  have hnum : toD (.num [0x31, 0x65, 0x39, 0x39, 0x39]) = .num (.inf false) := by
    rw [toD_num, show lexToJsNum [0x31, 0x65, 0x39, 0x39, 0x39] = .inf false from by decide]
  have h1 : jsParse (jsTrim (utf16 "1e999")) = .ok (.num (.inf false)) := by
    rw [jsParse_eq,
      show jsonParse (jsTrim (utf16 "1e999")) = .ok (.num [0x31, 0x65, 0x39, 0x39, 0x39]) from rfl]
    dsimp only [Except.map]
    rw [hnum]
  have hp : parseJsonD (utf16 "1e999") = .ok (.num (.inf false)) := by
    rw [parseJsonD_of_parse (by decide) h1]
    rfl
  have hser : formatValueD ⟨2, false⟩ (JvD.num (.inf false)) = utf16 "null" := by
    rw [formatValueD_pretty, serValD_num]
    decide
  have hf : formatJsonD (utf16 "1e999") ⟨2, false⟩ ⟨[], none⟩ = ⟨utf16 "null", none⟩ := by
    unfold formatJsonD
    rw [hp]
    dsimp only
    rw [hser]
  have h3 : parseJsonD (utf16 "null") = .ok JvD.null := by
    have h0 : jsParse (jsTrim (utf16 "null")) = .ok JvD.null := by
      rw [jsParse_eq, show jsonParse (jsTrim (utf16 "null")) = .ok Jv.null from rfl]
      dsimp only [Except.map]
      rw [toD_null]
    rw [parseJsonD_of_parse (by decide) h0]
    rfl
  exact ⟨hp, hf, h3, fun h => JvD.noConfusion h⟩

/-- C3: when the strict parse fails, the normalizer fails with a syntax error
carrying the engine diagnostic behind the Invalid JSON prefix, formatJson
stores the message and clears the output whatever the previous state was, and
no reachable state ever holds both an error and a nonempty output. -/
theorem claim3_syntax_error (s : List Nat) (m : String) (hne : ¬jsTrim s = [])
    (h : jsonParse (jsTrim s) = .error m) :
    parseJson s = .error ⟨.syntaxError, "Invalid JSON: " ++ m⟩ ∧
    (∀ (opts : FormatOptions) (st : UiState),
      formatJson s opts st = ⟨[], some ("Invalid JSON: " ++ m)⟩) ∧
    (∀ (t : List Nat) (opts : FormatOptions) (st : UiState),
      ¬(formatJson t opts st).error = none → (formatJson t opts st).output = []) := by
  have hp := parseJson_of_error h hne
  refine ⟨hp, ?_, ?_⟩
  · intro opts st
    unfold formatJson
    rw [hp]
  · intro t opts st herr
    unfold formatJson at herr ⊢
    split
    · rename_i v heq
      rw [heq] at herr
      exact absurd rfl herr
    · rfl

/-- C3 witness at the malformed document from the specification scenario. -/
theorem claim3_witness :
    parseJson (utf16 "\x7b\"a\":\x7d")
        = .error ⟨.syntaxError, "Invalid JSON: " ++ "Unexpected token in JSON input"⟩ ∧
      formatJson (utf16 "\x7b\"a\":\x7d") ⟨2, false⟩ ⟨utf16 "old", some "stale"⟩
        = ⟨[], some ("Invalid JSON: " ++ "Unexpected token in JSON input")⟩ := by
  have h := claim3_syntax_error (utf16 "\x7b\"a\":\x7d") "Unexpected token in JSON input"
    (by decide) rfl
  exact ⟨h.1, h.2.1 ⟨2, false⟩ ⟨utf16 "old", some "stale"⟩⟩

/-- C4: empty or whitespace-only input raises no error: the normalizer
succeeds with the null value and the input handler clears output and error. -/
theorem claim4_empty_input (s : List Nat) (h : jsTrim s = []) (opts : FormatOptions)
    (st : UiState) :
    parseJson s = .ok .null ∧ handleInputChange s opts st = ⟨[], none⟩ := by
  refine ⟨parseJson_empty h, ?_⟩
  unfold handleInputChange
  rw [if_neg (fun hcon => hcon h)]

/-- C4 witness on whitespace-only input, starting from a stale state. -/
theorem claim4_witness :
    parseJson (utf16 "  \t\n ") = .ok .null ∧
      handleInputChange (utf16 "  \t\n ") ⟨4, true⟩ ⟨utf16 "old", some "stale"⟩
        = ⟨[], none⟩ :=
  claim4_empty_input (utf16 "  \t\n ") (by decide) ⟨4, true⟩ ⟨utf16 "old", some "stale"⟩

/-- C5: formatting a successfully normalized value never fails: for any
options the handler stores no error and the output is the total
serialization of the value. -/
theorem claim5_format_total (s : List Nat) (v : Jv) (h : parseJson s = .ok v)
    (opts : FormatOptions) (st : UiState) :
    (formatJson s opts st).error = none ∧
      (formatJson s opts st).output = formatValue opts v := by
  unfold formatJson
  rw [h]
  exact ⟨rfl, rfl⟩

/-- C5 witness on a nested document with eight space indentation. -/
theorem claim5_witness :
    (formatJson (utf16 "[1,\x7b\x7d,null]") ⟨8, false⟩ ⟨[], none⟩).error = none ∧
      (formatJson (utf16 "[1,\x7b\x7d,null]") ⟨8, false⟩ ⟨[], none⟩).output
        = formatValue ⟨8, false⟩ (.arr [.num [0x31], .obj [], .null]) :=
  claim5_format_total (utf16 "[1,\x7b\x7d,null]") (.arr [.num [0x31], .obj [], .null]) rfl
    ⟨8, false⟩ ⟨[], none⟩

/-- C6: minified serialization inserts no whitespace outside string literals
(the scanner counts zero such units), and a value holding no numbers
reparses to the very value; a value holding the infinite double does not,
since the engine prints it as null. -/
theorem claim6_minify (v : Jv) (hwf : wfVal v = true) (i : Nat) :
    wsOut (formatValue ⟨i, true⟩ v) = 0 ∧
      (numFree v = true → jsonParse (formatValue ⟨i, true⟩ v) = .ok v) := by
  rw [formatValue_minify]
  exact ⟨wsOut_minified v hwf, fun _ => jsonParse_serVal (by simp) v hwf⟩

/-- C6 witness at a number-free document holding whitespace inside a string
literal. -/
theorem claim6_witness :
    wsOut (formatValue ⟨2, true⟩ (.obj [([0x61], .str [0x78, 0x20, 0x79])])) = 0 ∧
      jsonParse (formatValue ⟨2, true⟩ (.obj [([0x61], .str [0x78, 0x20, 0x79])]))
        = .ok (.obj [([0x61], .str [0x78, 0x20, 0x79])]) :=
  ⟨(claim6_minify (.obj [([0x61], .str [0x78, 0x20, 0x79])])
      (@jsonParse_wf (utf16 "\x7b\"a\":\"x y\"\x7d")
        (.obj [([0x61], .str [0x78, 0x20, 0x79])]) rfl) 2).1,
    (claim6_minify (.obj [([0x61], .str [0x78, 0x20, 0x79])])
      (@jsonParse_wf (utf16 "\x7b\"a\":\"x y\"\x7d")
        (.obj [([0x61], .str [0x78, 0x20, 0x79])]) rfl) 2).2
      (by rw [numFree_obj, numFreeMems_cons, numFree_str, numFreeMems_nil]; decide)⟩

/-- C6 counterexample: the engine value behind 1e999 is a normalizer
output, its minified serialization is null, and that output reparses to
the null value rather than the very value. -/
theorem claim6_cex :
    jsParse (utf16 "1e999") = .ok (.num (.inf false)) ∧
    formatValueD ⟨2, true⟩ (.num (.inf false)) = utf16 "null" ∧
    jsParse (utf16 "null") = .ok JvD.null ∧
    JvD.null ≠ JvD.num (.inf false) := by
  have hnum : toD (.num [0x31, 0x65, 0x39, 0x39, 0x39]) = .num (.inf false) := by
    rw [toD_num, show lexToJsNum [0x31, 0x65, 0x39, 0x39, 0x39] = .inf false from by decide]
  have h1 : jsParse (utf16 "1e999") = .ok (.num (.inf false)) := by
    rw [jsParse_eq,
      show jsonParse (utf16 "1e999") = .ok (.num [0x31, 0x65, 0x39, 0x39, 0x39]) from rfl]
    dsimp only [Except.map]
    rw [hnum]
  have h3 : jsParse (utf16 "null") = .ok JvD.null := by
    rw [jsParse_eq, show jsonParse (utf16 "null") = .ok Jv.null from rfl]
    dsimp only [Except.map]
    rw [toD_null]
  refine ⟨h1, ?_, h3, fun h => JvD.noConfusion h⟩
  rw [formatValueD_minify, serValD_num]
  decide

/-- C7: for a nonempty array or object, pretty printing with indent four is
strictly longer than with indent two, and when the value holds no numbers
both outputs reparse to the very value; a value holding the infinite double
reparses differently, since the engine prints it as null. -/
theorem claim7_indent (v : Jv) (hwf : wfVal v = true) (hc : nonemptyComposite v = true) :
    (formatValue ⟨2, false⟩ v).length < (formatValue ⟨4, false⟩ v).length ∧
      (numFree v = true →
        jsonParse (formatValue ⟨2, false⟩ v) = .ok v ∧
        jsonParse (formatValue ⟨4, false⟩ v) = .ok v) := by
  rw [formatValue_pretty, formatValue_pretty]
  exact ⟨serVal_len_strict v hc, fun _ => ⟨jsonParse_serVal (rep_ws (min 2 10)) v hwf,
    jsonParse_serVal (rep_ws (min 4 10)) v hwf⟩⟩

/-- C7 witness at a nested number-free object. -/
theorem claim7_witness :
    (formatValue ⟨2, false⟩ (.obj [([0x61], .arr [.null])])).length
        < (formatValue ⟨4, false⟩ (.obj [([0x61], .arr [.null])])).length ∧
      (jsonParse (formatValue ⟨2, false⟩ (.obj [([0x61], .arr [.null])]))
          = .ok (.obj [([0x61], .arr [.null])]) ∧
        jsonParse (formatValue ⟨4, false⟩ (.obj [([0x61], .arr [.null])]))
          = .ok (.obj [([0x61], .arr [.null])])) :=
  ⟨(claim7_indent (.obj [([0x61], .arr [.null])])
      (@jsonParse_wf (utf16 "\x7b\"a\":[null]\x7d") (.obj [([0x61], .arr [.null])]) rfl)
      rfl).1,
    (claim7_indent (.obj [([0x61], .arr [.null])])
      (@jsonParse_wf (utf16 "\x7b\"a\":[null]\x7d") (.obj [([0x61], .arr [.null])]) rfl)
      rfl).2
      (by rw [numFree_obj, numFreeMems_cons, numFree_arr, numFreeSeq_cons, numFree_null,
        numFreeSeq_nil, numFreeMems_nil]; decide)⟩

/-- C7 counterexample: the nonempty array behind the input holding 1e999
serializes under either indent with null in place of the infinite double,
and the indent two output reparses to an array holding null, not to the
very array. -/
theorem claim7_cex :
    jsParse (utf16 "[1e999]") = .ok (.arr [.num (.inf false)]) ∧
    formatValueD ⟨2, false⟩ (.arr [.num (.inf false)]) = utf16 "[\n  null\n]" ∧
    formatValueD ⟨4, false⟩ (.arr [.num (.inf false)]) = utf16 "[\n    null\n]" ∧
    jsParse (utf16 "[\n  null\n]") = .ok (.arr [JvD.null]) ∧
    JvD.arr [JvD.null] ≠ JvD.arr [JvD.num (.inf false)] := by
  have hnum : toD (.num [0x31, 0x65, 0x39, 0x39, 0x39]) = .num (.inf false) := by
    rw [toD_num, show lexToJsNum [0x31, 0x65, 0x39, 0x39, 0x39] = .inf false from by decide]
  have h1 : jsParse (utf16 "[1e999]") = .ok (.arr [.num (.inf false)]) := by
    rw [jsParse_eq,
      show jsonParse (utf16 "[1e999]") = .ok (.arr [.num [0x31, 0x65, 0x39, 0x39, 0x39]]) from rfl]
    dsimp only [Except.map]
    rw [toD_arr, toDSeq_cons, toDSeq_nil, hnum]
  have h3 : jsParse (utf16 "[\n  null\n]") = .ok (.arr [JvD.null]) := by
    rw [jsParse_eq, show jsonParse (utf16 "[\n  null\n]") = .ok (.arr [Jv.null]) from rfl]
    dsimp only [Except.map]
    rw [toD_arr, toDSeq_cons, toDSeq_nil, toD_null]
  refine ⟨h1, ?_, ?_, h3, by simp⟩
  · rw [formatValueD_pretty, serValD_arrCons, if_neg (by decide), serSeqD_single, serValD_num]
    decide
  · rw [formatValueD_pretty, serValD_arrCons, if_neg (by decide), serSeqD_single, serValD_num]
    decide

/-- C8: the concrete two-key object pretty prints with indent two exactly as
the specification scenario states, keys in insertion order; the pretty
output of a well-formed object or array holding no numbers and no array
index keys reparses to the very same member and element order (the engine
enumerates array index keys numerically ahead of insertion order, and the
infinite double prints as null, so the fragment is delimited by both). -/
theorem claim8_pretty_output :
    (∀ st : UiState, handleInputChange (utf16 "\x7b\"b\":2,\"a\":1\x7d") ⟨2, false⟩ st
        = ⟨utf16 "\x7b\n  \"b\": 2,\n  \"a\": 1\n\x7d", none⟩) ∧
    (∀ (ms : List (List Nat × Jv)) (n : Nat), wfVal (.obj ms) = true →
        numFree (.obj ms) = true → jsSafe (.obj ms) = true →
        jsonParse (formatValue ⟨n, false⟩ (.obj ms)) = .ok (.obj ms)) ∧
    (∀ (xs : List Jv) (n : Nat), wfVal (.arr xs) = true →
        numFree (.arr xs) = true → jsSafe (.arr xs) = true →
        jsonParse (formatValue ⟨n, false⟩ (.arr xs)) = .ok (.arr xs)) := by
  have hser : serVal (List.replicate (min 2 10) 0x20) []
      (.obj [([0x62], .num [0x32]), ([0x61], .num [0x31])])
      = utf16 "\x7b\n  \"b\": 2,\n  \"a\": 1\n\x7d" := by
    rw [serVal_objCons, if_neg (by decide), serMems_cons, serMem_eq, serMems_single,
      serMem_eq, itemSep_shape, if_neg (by decide), serVal_num, serVal_num]
    simp only [serStr]
    rw [show escBody [0x62] = [0x62] by
      rw [escBody_raw_ascii (by omega) (by omega) (by omega), escBody_nil]]
    rw [show escBody [0x61] = [0x61] by
      rw [escBody_raw_ascii (by omega) (by omega) (by omega), escBody_nil]]
    rw [if_neg (by decide)]
    decide
  refine ⟨?_, ?_, ?_⟩
  · intro st
    unfold handleInputChange
    rw [if_pos (by decide)]
    unfold formatJson
    rw [show parseJson (utf16 "\x7b\"b\":2,\"a\":1\x7d")
        = .ok (.obj [([0x62], .num [0x32]), ([0x61], .num [0x31])]) from rfl]
    dsimp only
    rw [formatValue_pretty, hser]
  · intro ms n hwf _ _
    rw [formatValue_pretty]
    exact jsonParse_serVal (rep_ws (min n 10)) _ hwf
  · intro xs n hwf _ _
    rw [formatValue_pretty]
    exact jsonParse_serVal (rep_ws (min n 10)) _ hwf

/-- C8 witness: the concrete scenario from a cleared state and an order
preserving reparse with indent four at a number-free object without array
index keys. -/
theorem claim8_witness :
    handleInputChange (utf16 "\x7b\"b\":2,\"a\":1\x7d") ⟨2, false⟩ ⟨[], none⟩
        = ⟨utf16 "\x7b\n  \"b\": 2,\n  \"a\": 1\n\x7d", none⟩ ∧
      jsonParse (formatValue ⟨4, false⟩ (.obj [([0x62], .bool true), ([0x61], .null)]))
        = .ok (.obj [([0x62], .bool true), ([0x61], .null)]) :=
  ⟨claim8_pretty_output.1 ⟨[], none⟩,
    claim8_pretty_output.2.1 [([0x62], .bool true), ([0x61], .null)] 4
      (@jsonParse_wf (utf16 "\x7b\"b\":true,\"a\":null\x7d")
        (.obj [([0x62], .bool true), ([0x61], .null)]) rfl)
      (by rw [numFree_obj, numFreeMems_cons, numFree_bool, numFreeMems_cons, numFree_null,
        numFreeMems_nil]; decide)
      (by rw [jsSafe_obj, jsSafeMems_cons, jsSafe_bool, jsSafeMems_cons, jsSafe_null,
        jsSafeMems_nil]; decide)⟩

/-- C8 counterexample: an object written with the key 10 before the key 2
is enumerated by the engine with 2 first (array index keys sort
numerically ahead of the rest), so the pretty output lists the keys
outside their source insertion order. -/
theorem claim8_cex :
    parseJsonD (utf16 "\x7b\"10\":\"x\",\"2\":\"y\"\x7d")
        = .ok (.obj [([0x32], .str [0x79]), ([0x31, 0x30], .str [0x78])]) ∧
    formatJsonD (utf16 "\x7b\"10\":\"x\",\"2\":\"y\"\x7d") ⟨2, false⟩ ⟨[], none⟩
        = ⟨utf16 "\x7b\n  \"2\": \"y\",\n  \"10\": \"x\"\n\x7d", none⟩ ∧
    utf16 "\x7b\n  \"2\": \"y\",\n  \"10\": \"x\"\n\x7d"
        ≠ utf16 "\x7b\n  \"10\": \"x\",\n  \"2\": \"y\"\n\x7d" := by
  have h1 : jsParse (jsTrim (utf16 "\x7b\"10\":\"x\",\"2\":\"y\"\x7d"))
      = .ok (.obj [([0x32], .str [0x79]), ([0x31, 0x30], .str [0x78])]) := by
    rw [jsParse_eq,
      show jsonParse (jsTrim (utf16 "\x7b\"10\":\"x\",\"2\":\"y\"\x7d"))
        = .ok (.obj [([0x31, 0x30], .str [0x78]), ([0x32], .str [0x79])]) from rfl]
    dsimp only [Except.map]
    rw [toD_obj, toDMems_cons, toDMems_cons, toDMems_nil, toD_str, toD_str]
    rw [show jsOrderMems [([0x31, 0x30], JvD.str [0x78]), ([0x32], JvD.str [0x79])]
        = [([0x32], JvD.str [0x79]), ([0x31, 0x30], JvD.str [0x78])] from rfl]
  have hp : parseJsonD (utf16 "\x7b\"10\":\"x\",\"2\":\"y\"\x7d")
      = .ok (.obj [([0x32], .str [0x79]), ([0x31, 0x30], .str [0x78])]) := by
    rw [parseJsonD_of_parse (by decide) h1]
    rfl
  have hser : formatValueD ⟨2, false⟩ (JvD.obj [([0x32], .str [0x79]), ([0x31, 0x30], .str [0x78])])
      = utf16 "\x7b\n  \"2\": \"y\",\n  \"10\": \"x\"\n\x7d" := by
    rw [formatValueD_pretty, serValD_objCons, if_neg (by decide), serMemsD_cons, serMemD_eq,
      serMemsD_single, serMemD_eq, serValD_str, serValD_str]
    simp only [serStr]
    rw [show escBody [0x32] = [0x32] from by
      rw [escBody_raw_ascii (by omega) (by omega) (by omega), escBody_nil]]
    rw [show escBody [0x31, 0x30] = [0x31, 0x30] from by
      rw [escBody_raw_ascii (by omega) (by omega) (by omega),
        escBody_raw_ascii (by omega) (by omega) (by omega), escBody_nil]]
    rw [show escBody [0x78] = [0x78] from by
      rw [escBody_raw_ascii (by omega) (by omega) (by omega), escBody_nil]]
    rw [show escBody [0x79] = [0x79] from by
      rw [escBody_raw_ascii (by omega) (by omega) (by omega), escBody_nil]]
    rw [if_neg (by decide)]
    decide
  refine ⟨hp, ?_, by decide⟩
  unfold formatJsonD
  rw [hp]
  dsimp only
  rw [hser]

/-- C9: the pipeline is a pure function of its inputs: identical input and
options give identical results, independently of any previous component
state. -/
theorem claim9_pure_determinism :
    (∀ (s1 s2 : List Nat) (o1 o2 : FormatOptions) (st1 st2 : UiState),
      s1 = s2 → o1 = o2 → formatJson s1 o1 st1 = formatJson s2 o2 st2) ∧
    (∀ s1 s2 : List Nat, s1 = s2 → parseJson s1 = parseJson s2) := by
  constructor
  · rintro s1 s2 o1 o2 st1 st2 rfl rfl
    rfl
  · rintro s1 s2 rfl
    rfl

/-- C9 witness: two invocations on the same input and options agree from
different previous states. -/
theorem claim9_witness :
    formatJson (utf16 "[1]") ⟨2, false⟩ ⟨[], none⟩
      = formatJson (utf16 "[1]") ⟨2, false⟩ ⟨utf16 "old", some "stale"⟩ :=
  claim9_pure_determinism.1 (utf16 "[1]") (utf16 "[1]") ⟨2, false⟩ ⟨2, false⟩
    ⟨[], none⟩ ⟨utf16 "old", some "stale"⟩ rfl rfl

/-- C10: with minify set, the indent option has no effect on the output. -/
theorem claim10_minify_ignores_indent : ∀ (v : Jv) (i j : Nat),
    formatValue ⟨i, true⟩ v = formatValue ⟨j, true⟩ v :=
  fun _ _ _ => rfl
